import Mathlib

/-!
Verification of lingpy's pairwise string-comparison engine.

A shallow embedding of `lingpy/compare/strings.py` (Kondrak-2005 style
string similarity measures) together with proofs and refutations of the
specification's claims about it.

Conventions of the embedding:
* a Python sequence of symbols is a `List Char` (the module is written for
  strings; every function indexes symbols only by position and equality);
* Python floats are modelled by `ℚ` (all the arithmetic in the module is
  ratios of small integers);
* a computation that would raise `ZeroDivisionError` in Python is modelled
  by `none : Option ℚ`; every other outcome is `some` of the value;
* the module-global `UNNORM` flag is passed explicitly: each metric takes a
  `norm : Bool` first argument, `norm = false` being `UNNORM = True` (the
  source default, "raw mode") and `norm = true` the normalized mode;
* the dynamic-programming matrices `m[i][j]` of the source are embedded as
  recursive cell functions; a fuel argument (always instantiated to `i + j`,
  an upper bound on the recursion depth) makes them structurally recursive,
  and fuel-irrelevance lemmas recover the exact matrix recurrences.
-/

namespace LingpyStrings

/-! ## Division as Python performs it: `x / 0` raises -/

/-- Division of rationals, with `none` modelling Python's
`ZeroDivisionError` on a zero denominator. -/
def qdiv (x y : ℚ) : Option ℚ :=
  if y = 0 then none else some (x / y)

/-! ## N-gram extraction

`s_a = chain((pad,)*(n-1), a, (pad,)*(n-1))` followed by
`count = max(0, len(s_a) - n + 1); [tuple(s_a[i:i+n]) for i in range(count)]`.
Natural-number truncated subtraction gives exactly the `max(0, ·)` guard. -/

/-- The Python slice `s[i:i+n]`. -/
def window (s : List α) (i n : ℕ) : List α :=
  (s.drop i).take n

/-- The sequence padded with `n-1` pad symbols on each side. -/
def padded (pad : α) (n : ℕ) (s : List α) : List α :=
  List.replicate (n - 1) pad ++ s ++ List.replicate (n - 1) pad

/-- All width-`n` windows of the padded sequence; the window count is
`max(0, padded_length - n + 1)`, i.e. `padded_length + 1 - n` in `ℕ`. -/
def ngrams (pad : α) (n : ℕ) (s : List α) : List (List α) :=
  (List.range ((padded pad n s).length + 1 - n)).map
    (fun i => window (padded pad n s) i n)

/-- The source's pad symbol `"-"`. -/
def padSym : Char := '-'

/-! ## The cost-minimizing (Levenshtein-style) matrix

Boundary `m[i][0] = i`, `m[0][j] = j`; interior
`m[i][j] = min(m[i][j-1]+1, m[i-1][j]+1, m[i-1][j-1] + cost(a[i-1], b[j-1]))`.
`dgo` carries fuel; `dcell c a b d i j` is the cell `m[i][j]` (with `d` a
default passed to `List.getD`, never used at in-range indices). -/

def dgo (c : α → α → ℚ) (a b : List α) (d : α) : ℕ → ℕ → ℕ → ℚ
  | _, i, 0 => (i : ℚ)
  | _, 0, j+1 => (j+1 : ℚ)
  | 0, _+1, _+1 => 0
  | f+1, i+1, j+1 =>
      min (min (dgo c a b d f (i+1) j + 1) (dgo c a b d f i (j+1) + 1))
        (dgo c a b d f i j + c (a.getD i d) (b.getD j d))

def dcell (c : α → α → ℚ) (a b : List α) (d : α) (i j : ℕ) : ℚ :=
  dgo c a b d (i + j) i j

theorem dgo_fuel (c : α → α → ℚ) (a b : List α) (d : α) :
    ∀ f g i j, i + j ≤ f → i + j ≤ g →
      dgo c a b d f i j = dgo c a b d g i j := by
  intro f
  induction f with
  | zero =>
      intro g i j hf _
      match i, j with
      | i, 0 => simp [dgo]
      | 0, j+1 => simp [dgo]
      | i+1, j+1 => omega
  | succ f ih =>
      intro g i j hf hg
      match i, j with
      | i, 0 => simp [dgo]
      | 0, j+1 => simp [dgo]
      | i+1, j+1 =>
          obtain ⟨g', rfl⟩ : ∃ g', g = g' + 1 := ⟨g - 1, by omega⟩
          simp only [dgo]
          rw [ih g' (i+1) j (by omega) (by omega),
            ih g' i (j+1) (by omega) (by omega),
            ih g' i j (by omega) (by omega)]

theorem dcell_zero_right (c : α → α → ℚ) (a b : List α) (d : α) (i : ℕ) :
    dcell c a b d i 0 = i := by
  simp [dcell, dgo]

theorem dcell_zero_left (c : α → α → ℚ) (a b : List α) (d : α) (j : ℕ) :
    dcell c a b d 0 j = j := by
  cases j <;> simp [dcell, dgo]

theorem dcell_succ (c : α → α → ℚ) (a b : List α) (d : α) (i j : ℕ) :
    dcell c a b d (i+1) (j+1) =
      min (min (dcell c a b d (i+1) j + 1) (dcell c a b d i (j+1) + 1))
        (dcell c a b d i j + c (a.getD i d) (b.getD j d)) := by
  show dgo c a b d ((i+1)+(j+1)) (i+1) (j+1) = _
  obtain ⟨f, hf⟩ : ∃ f, (i+1)+(j+1) = f + 1 := ⟨i+j+1, by omega⟩
  rw [hf]
  simp only [dgo]
  rw [dgo_fuel c a b d f ((i+1)+j) (i+1) j (by omega) (by omega),
    dgo_fuel c a b d f (i+(j+1)) i (j+1) (by omega) (by omega),
    dgo_fuel c a b d f (i+j) i j (by omega) (by omega)]
  rfl

/-! ## The Levenshtein metrics `ldn` and `ldn_swap` -/

/-- Exact-equality unit cost, the local cost of `ldn`. -/
def eqCost [DecidableEq α] (x y : α) : ℚ :=
  if x = y then 0 else 1

/-- Shared output step of the distance-matrix metrics: raw mode returns the
bottom-right cell, normalized mode divides it by `max la lb`. -/
def distOut (norm : Bool) (r : ℚ) (la lb : ℕ) : Option ℚ :=
  if norm then qdiv r ((max la lb : ℕ) : ℚ) else some r

/-- `ldn`: plain Levenshtein distance, unit costs. -/
def ldn (norm : Bool) (a b : List Char) : Option ℚ :=
  distOut norm (dcell eqCost a b padSym a.length b.length) a.length b.length

/-! ## `ldn_swap`: Levenshtein with the transposition shortcut

Interior cells first take the plain minimum `base`, then, when
`i > 1 and j > 1 and a[i-1] == b[j-2] and a[i-2] == b[j-1]`, additionally
minimize with `m[i-2][j-2] + 1` (the `base` expression is written out twice
here instead of Python's two-step assignment). -/

def swapCond [DecidableEq α] (a b : List α) (d : α) (i j : ℕ) : Prop :=
  1 ≤ i ∧ 1 ≤ j ∧ a.getD i d = b.getD (j-1) d ∧ a.getD (i-1) d = b.getD j d

instance [DecidableEq α] (a b : List α) (d : α) (i j : ℕ) :
    Decidable (swapCond a b d i j) := by
  unfold swapCond; infer_instance

def wgo [DecidableEq α] (a b : List α) (d : α) : ℕ → ℕ → ℕ → ℚ
  | _, i, 0 => (i : ℚ)
  | _, 0, j+1 => (j+1 : ℚ)
  | 0, _+1, _+1 => 0
  | f+1, i+1, j+1 =>
      if swapCond a b d i j then
        min (min (min (wgo a b d f (i+1) j + 1) (wgo a b d f i (j+1) + 1))
            (wgo a b d f i j + eqCost (a.getD i d) (b.getD j d)))
          (wgo a b d f (i-1) (j-1) + 1)
      else
        min (min (wgo a b d f (i+1) j + 1) (wgo a b d f i (j+1) + 1))
          (wgo a b d f i j + eqCost (a.getD i d) (b.getD j d))

def wcell [DecidableEq α] (a b : List α) (d : α) (i j : ℕ) : ℚ :=
  wgo a b d (i + j) i j

theorem wgo_fuel [DecidableEq α] (a b : List α) (d : α) :
    ∀ f g i j, i + j ≤ f → i + j ≤ g →
      wgo a b d f i j = wgo a b d g i j := by
  intro f
  induction f with
  | zero =>
      intro g i j hf _
      match i, j with
      | i, 0 => simp [wgo]
      | 0, j+1 => simp [wgo]
      | i+1, j+1 => omega
  | succ f ih =>
      intro g i j hf hg
      match i, j with
      | i, 0 => simp [wgo]
      | 0, j+1 => simp [wgo]
      | i+1, j+1 =>
          obtain ⟨g', rfl⟩ : ∃ g', g = g' + 1 := ⟨g - 1, by omega⟩
          simp only [wgo]
          rw [ih g' (i+1) j (by omega) (by omega),
            ih g' i (j+1) (by omega) (by omega),
            ih g' i j (by omega) (by omega),
            ih g' (i-1) (j-1) (by omega) (by omega)]

theorem wcell_zero_right [DecidableEq α] (a b : List α) (d : α) (i : ℕ) :
    wcell a b d i 0 = i := by
  simp [wcell, wgo]

theorem wcell_zero_left [DecidableEq α] (a b : List α) (d : α) (j : ℕ) :
    wcell a b d 0 j = j := by
  cases j <;> simp [wcell, wgo]

theorem wcell_succ [DecidableEq α] (a b : List α) (d : α) (i j : ℕ) :
    wcell a b d (i+1) (j+1) =
      if swapCond a b d i j then
        min (min (min (wcell a b d (i+1) j + 1) (wcell a b d i (j+1) + 1))
            (wcell a b d i j + eqCost (a.getD i d) (b.getD j d)))
          (wcell a b d (i-1) (j-1) + 1)
      else
        min (min (wcell a b d (i+1) j + 1) (wcell a b d i (j+1) + 1))
          (wcell a b d i j + eqCost (a.getD i d) (b.getD j d)) := by
  show wgo a b d ((i+1)+(j+1)) (i+1) (j+1) = _
  obtain ⟨f, hf⟩ : ∃ f, (i+1)+(j+1) = f + 1 := ⟨i+j+1, by omega⟩
  rw [hf]
  simp only [wgo]
  rw [wgo_fuel a b d f ((i+1)+j) (i+1) j (by omega) (by omega),
    wgo_fuel a b d f (i+(j+1)) i (j+1) (by omega) (by omega),
    wgo_fuel a b d f (i+j) i j (by omega) (by omega),
    wgo_fuel a b d f ((i-1)+(j-1)) (i-1) (j-1) (by omega) (by omega)]
  rfl

/-- `ldn_swap`: Levenshtein distance with the transposition (metathesis)
shortcut. -/
def ldn_swap (norm : Bool) (a b : List Char) : Option ℚ :=
  distOut norm (wcell a b padSym a.length b.length) a.length b.length

/-! ## The score-maximizing (LCS-style) matrices

`lgo`/`lcell`: boundary 0; interior `m[i-1][j-1]+1` on an exact unit match,
else `max(m[i][j-1], m[i-1][j])` — the recurrence of `lcs`, `bisim1`,
`trisim1`.  `mgo`/`mcell`: interior
`max(m[i][j-1], m[i-1][j], m[i-1][j-1] + sim(a[i-1], b[j-1]))` — the
recurrence of `bisim2`, `trisim2`, `bisim3`, `trisim3`. -/

def lgo [DecidableEq α] (a b : List α) (d : α) : ℕ → ℕ → ℕ → ℚ
  | _, _, 0 => 0
  | _, 0, _+1 => 0
  | 0, _+1, _+1 => 0
  | f+1, i+1, j+1 =>
      if a.getD i d = b.getD j d then lgo a b d f i j + 1
      else max (lgo a b d f (i+1) j) (lgo a b d f i (j+1))

def lcell [DecidableEq α] (a b : List α) (d : α) (i j : ℕ) : ℚ :=
  lgo a b d (i + j) i j

theorem lgo_fuel [DecidableEq α] (a b : List α) (d : α) :
    ∀ f g i j, i + j ≤ f → i + j ≤ g →
      lgo a b d f i j = lgo a b d g i j := by
  intro f
  induction f with
  | zero =>
      intro g i j hf _
      match i, j with
      | i, 0 => simp [lgo]
      | 0, j+1 => simp [lgo]
      | i+1, j+1 => omega
  | succ f ih =>
      intro g i j hf hg
      match i, j with
      | i, 0 => simp [lgo]
      | 0, j+1 => simp [lgo]
      | i+1, j+1 =>
          obtain ⟨g', rfl⟩ : ∃ g', g = g' + 1 := ⟨g - 1, by omega⟩
          simp only [lgo]
          rw [ih g' (i+1) j (by omega) (by omega),
            ih g' i (j+1) (by omega) (by omega),
            ih g' i j (by omega) (by omega)]

theorem lcell_zero_right [DecidableEq α] (a b : List α) (d : α) (i : ℕ) :
    lcell a b d i 0 = 0 := by
  simp [lcell, lgo]

theorem lcell_zero_left [DecidableEq α] (a b : List α) (d : α) (j : ℕ) :
    lcell a b d 0 j = 0 := by
  cases j <;> simp [lcell, lgo]

theorem lcell_succ [DecidableEq α] (a b : List α) (d : α) (i j : ℕ) :
    lcell a b d (i+1) (j+1) =
      if a.getD i d = b.getD j d then lcell a b d i j + 1
      else max (lcell a b d (i+1) j) (lcell a b d i (j+1)) := by
  show lgo a b d ((i+1)+(j+1)) (i+1) (j+1) = _
  obtain ⟨f, hf⟩ : ∃ f, (i+1)+(j+1) = f + 1 := ⟨i+j+1, by omega⟩
  rw [hf]
  simp only [lgo]
  rw [lgo_fuel a b d f (i+j) i j (by omega) (by omega),
    lgo_fuel a b d f ((i+1)+j) (i+1) j (by omega) (by omega),
    lgo_fuel a b d f (i+(j+1)) i (j+1) (by omega) (by omega)]
  rfl

def mgo (s : α → α → ℚ) (a b : List α) (d : α) : ℕ → ℕ → ℕ → ℚ
  | _, _, 0 => 0
  | _, 0, _+1 => 0
  | 0, _+1, _+1 => 0
  | f+1, i+1, j+1 =>
      max (max (mgo s a b d f (i+1) j) (mgo s a b d f i (j+1)))
        (mgo s a b d f i j + s (a.getD i d) (b.getD j d))

def mcell (s : α → α → ℚ) (a b : List α) (d : α) (i j : ℕ) : ℚ :=
  mgo s a b d (i + j) i j

theorem mgo_fuel (s : α → α → ℚ) (a b : List α) (d : α) :
    ∀ f g i j, i + j ≤ f → i + j ≤ g →
      mgo s a b d f i j = mgo s a b d g i j := by
  intro f
  induction f with
  | zero =>
      intro g i j hf _
      match i, j with
      | i, 0 => simp [mgo]
      | 0, j+1 => simp [mgo]
      | i+1, j+1 => omega
  | succ f ih =>
      intro g i j hf hg
      match i, j with
      | i, 0 => simp [mgo]
      | 0, j+1 => simp [mgo]
      | i+1, j+1 =>
          obtain ⟨g', rfl⟩ : ∃ g', g = g' + 1 := ⟨g - 1, by omega⟩
          simp only [mgo]
          rw [ih g' (i+1) j (by omega) (by omega),
            ih g' i (j+1) (by omega) (by omega),
            ih g' i j (by omega) (by omega)]

theorem mcell_zero_right (s : α → α → ℚ) (a b : List α) (d : α) (i : ℕ) :
    mcell s a b d i 0 = 0 := by
  simp [mcell, mgo]

theorem mcell_zero_left (s : α → α → ℚ) (a b : List α) (d : α) (j : ℕ) :
    mcell s a b d 0 j = 0 := by
  cases j <;> simp [mcell, mgo]

theorem mcell_succ (s : α → α → ℚ) (a b : List α) (d : α) (i j : ℕ) :
    mcell s a b d (i+1) (j+1) =
      max (max (mcell s a b d (i+1) j) (mcell s a b d i (j+1)))
        (mcell s a b d i j + s (a.getD i d) (b.getD j d)) := by
  show mgo s a b d ((i+1)+(j+1)) (i+1) (j+1) = _
  obtain ⟨f, hf⟩ : ∃ f, (i+1)+(j+1) = f + 1 := ⟨i+j+1, by omega⟩
  rw [hf]
  simp only [mgo]
  rw [mgo_fuel s a b d f ((i+1)+j) (i+1) j (by omega) (by omega),
    mgo_fuel s a b d f (i+(j+1)) i (j+1) (by omega) (by omega),
    mgo_fuel s a b d f (i+j) i j (by omega) (by omega)]
  rfl

/-! ## Local costs and similarities of the n-gram matrix metrics -/

/-- Cost of `bidist2`/`tridist2` ("comprehensive"): equal grams cost 0,
unequal grams cost `len([k for k in g1 if k not in g2]) / n`. -/
def diffCost (n : ℕ) (g1 g2 : List Char) : ℚ :=
  if g1 = g2 then 0 else ((g1.filter (fun k => ¬ (k ∈ g2))).length : ℚ) / n

/-- Cost of `bidist3` (positional): equal grams cost 0, unequal grams cost
the number of positionally differing 1-grams over 2. -/
def posCost2 (g1 g2 : List Char) : ℚ :=
  if g1 = g2 then 0
  else ((if g1.getD 0 padSym = g2.getD 0 padSym then 0 else 1) +
    (if g1.getD 1 padSym = g2.getD 1 padSym then 0 else (1:ℚ))) / 2

/-- Cost of `tridist3` (positional, width 3). -/
def posCost3 (g1 g2 : List Char) : ℚ :=
  if g1 = g2 then 0
  else ((if g1.getD 0 padSym = g2.getD 0 padSym then 0 else 1) +
    (if g1.getD 1 padSym = g2.getD 1 padSym then 0 else (1:ℚ)) +
    (if g1.getD 2 padSym = g2.getD 2 padSym then 0 else 1)) / 3

/-- Similarity of `bisim2`/`trisim2`:
`len([k for k in g1 if k in g2]) / n`. -/
def commonSim (n : ℕ) (g1 g2 : List Char) : ℚ :=
  ((g1.filter (fun k => k ∈ g2)).length : ℚ) / n

/-- Similarity of `bisim3` (positional). -/
def posSim2 (g1 g2 : List Char) : ℚ :=
  ((if g1.getD 0 padSym = g2.getD 0 padSym then (1:ℚ) else 0) +
    (if g1.getD 1 padSym = g2.getD 1 padSym then 1 else 0)) / 2

/-- Similarity of `trisim3` (positional, width 3). -/
def posSim3 (g1 g2 : List Char) : ℚ :=
  ((if g1.getD 0 padSym = g2.getD 0 padSym then (1:ℚ) else 0) +
    (if g1.getD 1 padSym = g2.getD 1 padSym then 1 else 0) +
    (if g1.getD 2 padSym = g2.getD 2 padSym then 1 else 0)) / 3

/-- Shared output step of the similarity-matrix metrics: raw mode returns
`max la lb - m` (similarity converted to a distance), normalized mode
returns `1 - m / max la lb`. -/
def simOut (norm : Bool) (m : ℚ) (la lb : ℕ) : Option ℚ :=
  if norm then (qdiv m ((max la lb : ℕ) : ℚ)).map (fun q => 1 - q)
  else some ((max la lb : ℕ) - m)

/-! ## The n-gram matrix metrics

`bidist1`/`tridist1` build the DP matrix of size `(G_a+1) x (G_b+1)` over
the gram lists (`G_x` = number of grams of `x`) and read `m[G_a][G_b]`.
`bidist2`, `tridist2`, `bidist3`, `tridist3` instead set
`la = len(s_a)` (without `+1`), so their matrix is one row/column smaller:
they read `m[G_a - 1][G_b - 1]` and normalize by `max(G_a - 1, G_b - 1)`.
`bisim1`..`trisim3` use `la = len(a)+1` (the raw string length), reading
`m[len(a)][len(b)]` over the gram lists and normalizing by
`max(len(a), len(b))`. -/

def bidist1 (norm : Bool) (a b : List Char) : Option ℚ :=
  distOut norm
    (dcell eqCost (ngrams padSym 2 a) (ngrams padSym 2 b) []
      (ngrams padSym 2 a).length (ngrams padSym 2 b).length)
    (ngrams padSym 2 a).length (ngrams padSym 2 b).length

def tridist1 (norm : Bool) (a b : List Char) : Option ℚ :=
  distOut norm
    (dcell eqCost (ngrams padSym 3 a) (ngrams padSym 3 b) []
      (ngrams padSym 3 a).length (ngrams padSym 3 b).length)
    (ngrams padSym 3 a).length (ngrams padSym 3 b).length

def bidist2 (norm : Bool) (a b : List Char) : Option ℚ :=
  distOut norm
    (dcell (diffCost 2) (ngrams padSym 2 a) (ngrams padSym 2 b) []
      ((ngrams padSym 2 a).length - 1) ((ngrams padSym 2 b).length - 1))
    ((ngrams padSym 2 a).length - 1) ((ngrams padSym 2 b).length - 1)

def tridist2 (norm : Bool) (a b : List Char) : Option ℚ :=
  distOut norm
    (dcell (diffCost 3) (ngrams padSym 3 a) (ngrams padSym 3 b) []
      ((ngrams padSym 3 a).length - 1) ((ngrams padSym 3 b).length - 1))
    ((ngrams padSym 3 a).length - 1) ((ngrams padSym 3 b).length - 1)

def bidist3 (norm : Bool) (a b : List Char) : Option ℚ :=
  distOut norm
    (dcell posCost2 (ngrams padSym 2 a) (ngrams padSym 2 b) []
      ((ngrams padSym 2 a).length - 1) ((ngrams padSym 2 b).length - 1))
    ((ngrams padSym 2 a).length - 1) ((ngrams padSym 2 b).length - 1)

def tridist3 (norm : Bool) (a b : List Char) : Option ℚ :=
  distOut norm
    (dcell posCost3 (ngrams padSym 3 a) (ngrams padSym 3 b) []
      ((ngrams padSym 3 a).length - 1) ((ngrams padSym 3 b).length - 1))
    ((ngrams padSym 3 a).length - 1) ((ngrams padSym 3 b).length - 1)

/-- `lcs`: longest common subsequence, reported on the shared
distance scale. -/
def lcs (norm : Bool) (a b : List Char) : Option ℚ :=
  simOut norm (lcell a b padSym a.length b.length) a.length b.length

def bisim1 (norm : Bool) (a b : List Char) : Option ℚ :=
  simOut norm
    (lcell (ngrams padSym 2 a) (ngrams padSym 2 b) [] a.length b.length)
    a.length b.length

def trisim1 (norm : Bool) (a b : List Char) : Option ℚ :=
  simOut norm
    (lcell (ngrams padSym 3 a) (ngrams padSym 3 b) [] a.length b.length)
    a.length b.length

def bisim2 (norm : Bool) (a b : List Char) : Option ℚ :=
  simOut norm
    (mcell (commonSim 2) (ngrams padSym 2 a) (ngrams padSym 2 b) []
      a.length b.length)
    a.length b.length

def trisim2 (norm : Bool) (a b : List Char) : Option ℚ :=
  simOut norm
    (mcell (commonSim 3) (ngrams padSym 3 a) (ngrams padSym 3 b) []
      a.length b.length)
    a.length b.length

def bisim3 (norm : Bool) (a b : List Char) : Option ℚ :=
  simOut norm
    (mcell posSim2 (ngrams padSym 2 a) (ngrams padSym 2 b) []
      a.length b.length)
    a.length b.length

def trisim3 (norm : Bool) (a b : List Char) : Option ℚ :=
  simOut norm
    (mcell posSim3 (ngrams padSym 3 a) (ngrams padSym 3 b) []
      a.length b.length)
    a.length b.length

/-! ## The multiset-overlap metrics

The Python code builds `defaultdict(int)` multisets of keys and sums
`min(dicta[k], dictb[k])` over the keys present in both; here the multiset
is the key list itself and the sum runs over the distinct shared keys. -/

/-- `sum(min(count_xs k, count_ys k))` over distinct keys occurring in both
lists. -/
def overlap [DecidableEq κ] (xs ys : List κ) : ℕ :=
  ∑ k ∈ xs.toFinset ∩ ys.toFinset, min (xs.count k) (ys.count k)

/-- The bigrams `a[i:i+2]` for `i in range(len(a) - 1)` (no padding). -/
def bigrams (xs : List Char) : List (List Char) :=
  (List.range (xs.length - 1)).map (fun i => window xs i 2)

/-- The trigrams `a[i:i+3]` for `i in range(len(a) - 2)` (no padding). -/
def trigramsOf (xs : List Char) : List (List Char) :=
  (List.range (xs.length - 2)).map (fun i => window xs i 3)

/-- The skip-grams `[a[i], a[i+2]]` for `i in range(len(a) - 2)`. -/
def skipgrams (xs : List Char) : List (List Char) :=
  (List.range (xs.length - 2)).map (fun i => [xs.getD i padSym, xs.getD (i+2) padSym])

/-- `dice`: `la = len(a)-1`, `lb = len(b)-1` as (possibly negative)
integers; `total == 0` returns the literal 0 in either mode. -/
def dice (norm : Bool) (a b : List Char) : Option ℚ :=
  if ((a.length : ℤ) - 1) + ((b.length : ℤ) - 1) = 0 then some 0
  else if norm then
    some (1 - (2 * (overlap (bigrams a) (bigrams b)) : ℚ) /
      ((((a.length : ℤ) - 1) + ((b.length : ℤ) - 1) : ℤ) : ℚ))
  else
    some (((((a.length : ℤ) - 1) + ((b.length : ℤ) - 1) : ℤ) : ℚ) -
      2 * (overlap (bigrams a) (bigrams b)))

/-- `jcd`: bigram Jaccard; `total = la + lb - overlap`. -/
def jcd (norm : Bool) (a b : List Char) : Option ℚ :=
  if ((a.length : ℤ) - 1) + ((b.length : ℤ) - 1)
      - (overlap (bigrams a) (bigrams b) : ℤ) = 0 then some 0
  else if norm then
    some (1 - ((overlap (bigrams a) (bigrams b)) : ℚ) /
      ((((a.length : ℤ) - 1) + ((b.length : ℤ) - 1)
        - (overlap (bigrams a) (bigrams b) : ℤ) : ℤ) : ℚ))
  else
    some (((((a.length : ℤ) - 1) + ((b.length : ℤ) - 1)
        - (overlap (bigrams a) (bigrams b) : ℤ) : ℤ) : ℚ) -
      (overlap (bigrams a) (bigrams b)))

/-- The three keys `s[i:i+k]`, `k = 1, 2, 3`, that `jcdn` inserts for a
position `i` of a padded sequence. -/
def kgramsAt (s : List Char) (i : ℕ) : List (List Char) :=
  [window s i 1, window s i 2, window s i 3]

/-- `jcdn`'s first multiset: keys for `i in range(len(s_a) - 1)`. -/
def jcdnKeysA (sa : List Char) : List (List Char) :=
  (List.range (sa.length - 1)).flatMap (kgramsAt sa)

/-- `jcdn`'s second multiset, reproducing the source's indexing slip: the
key position is the first loop's leftover index `i = len(s_a) - 2`, repeated
once per `j in range(len(s_b) - 1)`. -/
def jcdnKeysB (sa sb : List Char) : List (List Char) :=
  (List.range (sb.length - 1)).flatMap (fun _ => kgramsAt sb (sa.length - 2))

/-- `jcdn`: combined 1-3-gram Jaccard over padded sequences (with the
source's indexing slip in the second multiset). -/
def jcdn (norm : Bool) (a b : List Char) : Option ℚ :=
  if ((a.length : ℤ) - 1) + ((b.length : ℤ) - 1)
      - (overlap (jcdnKeysA (padded padSym 3 a))
          (jcdnKeysB (padded padSym 3 a) (padded padSym 3 b)) : ℤ) = 0 then some 0
  else if norm then
    some (1 - ((overlap (jcdnKeysA (padded padSym 3 a))
          (jcdnKeysB (padded padSym 3 a) (padded padSym 3 b))) : ℚ) /
      ((((a.length : ℤ) - 1) + ((b.length : ℤ) - 1)
        - (overlap (jcdnKeysA (padded padSym 3 a))
            (jcdnKeysB (padded padSym 3 a) (padded padSym 3 b)) : ℤ) : ℤ) : ℚ))
  else
    some (((((a.length : ℤ) - 1) + ((b.length : ℤ) - 1)
        - (overlap (jcdnKeysA (padded padSym 3 a))
            (jcdnKeysB (padded padSym 3 a) (padded padSym 3 b)) : ℤ) : ℤ) : ℚ) -
      (overlap (jcdnKeysA (padded padSym 3 a))
        (jcdnKeysB (padded padSym 3 a) (padded padSym 3 b))))

/-- The match counter of the source's longest-common-prefix metric: the
number of indices `i < min(len(a), len(b))` with `a[i] == b[i]`. -/
def prefCount (a b : List Char) : ℕ :=
  ((List.range (min a.length b.length)).filter
    (fun i => a.getD i padSym = b.getD i padSym)).length

/-- The longest-common-prefix metric (`prefix` in the source). -/
def prefixDist (norm : Bool) (a b : List Char) : Option ℚ :=
  if norm then
    (qdiv (prefCount a b) ((max a.length b.length : ℕ) : ℚ)).map (fun q => 1 - q)
  else some ((max a.length b.length : ℕ) - (prefCount a b : ℚ))

/-- `xdice`: skip-1-character Dice; `la = len(a)-2`, `lb = len(b)-2`;
the guard `total == 0 or la < 1 or lb < 1` returns the literal 0. -/
def xdice (norm : Bool) (a b : List Char) : Option ℚ :=
  if ((a.length : ℤ) - 2) + ((b.length : ℤ) - 2) = 0 ∨ (a.length : ℤ) - 2 < 1
      ∨ (b.length : ℤ) - 2 < 1 then some 0
  else if norm then
    some (1 - (2 * (overlap (skipgrams a) (skipgrams b)) : ℚ) /
      ((((a.length : ℤ) - 2) + ((b.length : ℤ) - 2) : ℤ) : ℚ))
  else
    some (((((a.length : ℤ) - 2) + ((b.length : ℤ) - 2) : ℤ) : ℚ) -
      2 * (overlap (skipgrams a) (skipgrams b)))

/-- `trigram`: common-trigram count; same guard as `xdice` but the
degenerate return value is the literal `1.0`. -/
def trigram (norm : Bool) (a b : List Char) : Option ℚ :=
  if ((a.length : ℤ) - 2) + ((b.length : ℤ) - 2) = 0 ∨ (a.length : ℤ) - 2 < 1
      ∨ (b.length : ℤ) - 2 < 1 then some 1
  else if norm then
    some (1 - (2 * (overlap (trigramsOf a) (trigramsOf b)) : ℚ) /
      ((((a.length : ℤ) - 2) + ((b.length : ℤ) - 2) : ℤ) : ℚ))
  else
    some (((((a.length : ℤ) - 2) + ((b.length : ℤ) - 2) : ℤ) : ℚ) -
      2 * (overlap (trigramsOf a) (trigramsOf b)))

/-- `ident`: 0 for element-wise equal sequences, else 1 (the `UNNORM` flag
is ignored by the source). -/
def ident (norm : Bool) (a b : List Char) : Option ℚ :=
  some (1 - (if a = b then (1:ℚ) else 0))

/-- Positions at which `xs` has the bigram `k`
(the lists `dicta[k]` of `xxdice`). -/
def xxPos (xs : List Char) (k : List Char) : Finset ℕ :=
  (Finset.range (xs.length - 1)).filter (fun i => window xs i 2 = k)

/-- `xxdice`'s position-weighted overlap
`sum(1 / (1 + (m - n)^2))` over pairs of occurrence positions of shared
bigrams. -/
def xxOverlap (a b : List Char) : ℚ :=
  ∑ k ∈ (bigrams a).toFinset ∩ (bigrams b).toFinset,
    ∑ m ∈ xxPos a k, ∑ n ∈ xxPos b k, 1 / (1 + ((m : ℚ) - (n : ℚ))^2)

/-- `xxdice` (Brew 1996). -/
def xxdice (norm : Bool) (a b : List Char) : Option ℚ :=
  if ((a.length : ℤ) - 1) + ((b.length : ℤ) - 1) = 0 then some 0
  else if norm then
    some (1 - (2 * xxOverlap a b) /
      ((((a.length : ℤ) - 1) + ((b.length : ℤ) - 1) : ℤ) : ℚ))
  else
    some (((((a.length : ℤ) - 1) + ((b.length : ℤ) - 1) : ℤ) : ℚ) -
      2 * xxOverlap a b)

/-! ## Generic facts about the matrix cells -/

theorem dcell_nonneg (c : α → α → ℚ) (a b : List α) (d : α)
    (hc : ∀ i j, 0 ≤ c (a.getD i d) (b.getD j d)) :
    ∀ i j, 0 ≤ dcell c a b d i j := by
  intro i
  induction i with
  | zero => intro j; rw [dcell_zero_left]; exact Nat.cast_nonneg j
  | succ i ih =>
      intro j
      induction j with
      | zero => rw [dcell_zero_right]; exact Nat.cast_nonneg _
      | succ j ihj =>
          rw [dcell_succ]
          refine le_min (le_min ?_ ?_) ?_
          · linarith [ihj]
          · linarith [ih (j+1)]
          · linarith [ih j, hc i j]

theorem dcell_le_max (c : α → α → ℚ) (a b : List α) (d : α)
    (hc : ∀ i j, c (a.getD i d) (b.getD j d) ≤ 1) :
    ∀ i j, dcell c a b d i j ≤ ((max i j : ℕ) : ℚ) := by
  intro i
  induction i with
  | zero =>
      intro j
      rw [dcell_zero_left]
      exact_mod_cast Nat.le_max_right 0 j
  | succ i ih =>
      intro j
      induction j with
      | zero =>
          rw [dcell_zero_right]
          exact_mod_cast Nat.le_max_left (i+1) 0
      | succ j ihj =>
          rw [dcell_succ]
          have hmax : max (i+1) (j+1) = max i j + 1 := by omega
          rw [hmax, Nat.cast_add, Nat.cast_one]
          refine le_trans (min_le_right _ _) ?_
          linarith [ih j, hc i j]

theorem dcell_diag (c : α → α → ℚ) (a : List α) (d : α)
    (h0 : ∀ i, c (a.getD i d) (a.getD i d) = 0)
    (hc : ∀ i j, 0 ≤ c (a.getD i d) (a.getD j d)) :
    ∀ i, dcell c a a d i i = 0 := by
  intro i
  induction i with
  | zero => rw [dcell_zero_right]; exact Nat.cast_zero
  | succ i ih =>
      rw [dcell_succ, ih, h0 i, add_zero]
      refine min_eq_right (le_min ?_ ?_)
      · linarith [dcell_nonneg c a a d hc (i+1) i]
      · linarith [dcell_nonneg c a a d hc i (i+1)]

theorem dcell_symm (c : α → α → ℚ) (a b : List α) (d : α)
    (hc : ∀ i j, c (a.getD i d) (b.getD j d) = c (b.getD j d) (a.getD i d)) :
    ∀ i j, dcell c a b d i j = dcell c b a d j i := by
  intro i
  induction i with
  | zero => intro j; rw [dcell_zero_left, dcell_zero_right]
  | succ i ih =>
      intro j
      induction j with
      | zero => rw [dcell_zero_right, dcell_zero_left]
      | succ j ihj =>
          rw [dcell_succ, dcell_succ, ihj, ih (j+1), ih j, hc i j,
            min_comm (dcell c b a d j (i+1) + 1) (dcell c b a d (j+1) i + 1)]

/-! ## Facts about the transposition-aware cells -/

theorem swapCond_symm [DecidableEq α] (a b : List α) (d : α) (i j : ℕ) :
    swapCond a b d i j ↔ swapCond b a d j i := by
  unfold swapCond
  constructor
  · rintro ⟨h1, h2, h3, h4⟩; exact ⟨h2, h1, h4.symm, h3.symm⟩
  · rintro ⟨h1, h2, h3, h4⟩; exact ⟨h2, h1, h4.symm, h3.symm⟩

theorem wcell_le_dcell [DecidableEq α] (a b : List α) (d : α) :
    ∀ i j, wcell a b d i j ≤ dcell eqCost a b d i j := by
  intro i
  induction i using Nat.strongRecOn with
  | ind i ihs =>
      cases i with
      | zero =>
          intro j
          rw [wcell_zero_left, dcell_zero_left]
      | succ i =>
          intro j
          induction j with
          | zero => rw [wcell_zero_right, dcell_zero_right]
          | succ j ihj =>
              rw [wcell_succ, dcell_succ]
              have hB := ihs i (by omega) (j+1)
              have hC := ihs i (by omega) j
              have hbase :
                  min (min (wcell a b d (i+1) j + 1) (wcell a b d i (j+1) + 1))
                    (wcell a b d i j + eqCost (a.getD i d) (b.getD j d)) ≤
                  min (min (dcell eqCost a b d (i+1) j + 1)
                      (dcell eqCost a b d i (j+1) + 1))
                    (dcell eqCost a b d i j + eqCost (a.getD i d) (b.getD j d)) :=
                min_le_min (min_le_min (by linarith) (by linarith)) (by linarith)
              by_cases h : swapCond a b d i j
              · rw [if_pos h]
                exact le_trans (min_le_left _ _) hbase
              · rw [if_neg h]
                exact hbase

theorem wcell_nonneg [DecidableEq α] (a b : List α) (d : α) :
    ∀ i j, 0 ≤ wcell a b d i j := by
  intro i
  induction i using Nat.strongRecOn with
  | ind i ihs =>
      cases i with
      | zero => intro j; rw [wcell_zero_left]; exact Nat.cast_nonneg j
      | succ i =>
          intro j
          induction j with
          | zero => rw [wcell_zero_right]; exact Nat.cast_nonneg _
          | succ j ihj =>
              rw [wcell_succ]
              have hB := ihs i (by omega) (j+1)
              have hC := ihs i (by omega) j
              have hD := ihs (i-1) (by omega) (j-1)
              have he : (0:ℚ) ≤ eqCost (a.getD i d) (b.getD j d) := by
                unfold eqCost; split <;> norm_num
              by_cases h : swapCond a b d i j
              · rw [if_pos h]
                refine le_min (le_min (le_min ?_ ?_) ?_) ?_ <;> linarith
              · rw [if_neg h]
                refine le_min (le_min ?_ ?_) ?_ <;> linarith

theorem wcell_symm [DecidableEq α] (a b : List α) (d : α) :
    ∀ i j, wcell a b d i j = wcell b a d j i := by
  intro i
  induction i using Nat.strongRecOn with
  | ind i ihs =>
      cases i with
      | zero =>
          intro j
          rw [wcell_zero_left, wcell_zero_right]
      | succ i =>
          intro j
          induction j with
          | zero => rw [wcell_zero_right, wcell_zero_left]
          | succ j ihj =>
              rw [wcell_succ, wcell_succ]
              have hA : wcell a b d (i+1) j = wcell b a d j (i+1) := ihj
              have hB := ihs i (by omega) (j+1)
              have hC := ihs i (by omega) j
              have hD := ihs (i-1) (by omega) (j-1)
              have hcost : eqCost (a.getD i d) (b.getD j d)
                  = eqCost (b.getD j d) (a.getD i d) := by
                unfold eqCost
                by_cases h : a.getD i d = b.getD j d
                · rw [if_pos h, if_pos h.symm]
                · rw [if_neg h, if_neg (fun e => h e.symm)]
              by_cases h : swapCond a b d i j
              · rw [if_pos h, if_pos ((swapCond_symm a b d i j).mp h),
                  hA, hB, hC, hD, hcost,
                  min_comm (wcell b a d j (i+1) + 1) (wcell b a d (j+1) i + 1)]
              · rw [if_neg h, if_neg (fun h2 => h ((swapCond_symm a b d i j).mpr h2)),
                  hA, hB, hC, hcost,
                  min_comm (wcell b a d j (i+1) + 1) (wcell b a d (j+1) i + 1)]

theorem wcell_diag [DecidableEq α] (a : List α) (d : α) :
    ∀ i, wcell a a d i i = 0 := by
  intro i
  refine le_antisymm ?_ (wcell_nonneg a a d i i)
  calc wcell a a d i i ≤ dcell eqCost a a d i i := wcell_le_dcell a a d i i
  _ = 0 := dcell_diag eqCost a d (fun i => by simp [eqCost])
      (fun i j => by unfold eqCost; split <;> norm_num) i

/-! ## Facts about the LCS-style cells -/

theorem lcell_nonneg [DecidableEq α] (a b : List α) (d : α) :
    ∀ i j, 0 ≤ lcell a b d i j := by
  intro i
  induction i with
  | zero => intro j; rw [lcell_zero_left]
  | succ i ih =>
      intro j
      induction j with
      | zero => rw [lcell_zero_right]
      | succ j ihj =>
          rw [lcell_succ]
          split
          · linarith [ih j]
          · exact le_max_of_le_left ihj

theorem lcell_le_min [DecidableEq α] (a b : List α) (d : α) :
    ∀ i j, lcell a b d i j ≤ ((min i j : ℕ) : ℚ) := by
  intro i
  induction i with
  | zero => intro j; rw [lcell_zero_left]; exact Nat.cast_nonneg _
  | succ i ih =>
      intro j
      induction j with
      | zero => rw [lcell_zero_right]; exact Nat.cast_nonneg _
      | succ j ihj =>
          rw [lcell_succ]
          have hmin : (min (i+1) (j+1)) = min i j + 1 := by omega
          split
          · rw [hmin, Nat.cast_add, Nat.cast_one]
            linarith [ih j]
          · refine max_le (le_trans ihj ?_) (le_trans (ih (j+1)) ?_)
            · exact Nat.cast_le.mpr (min_le_min (le_refl _) (by omega))
            · exact Nat.cast_le.mpr (min_le_min (by omega) (le_refl _))

theorem lcell_diag [DecidableEq α] (a : List α) (d : α) :
    ∀ i, lcell a a d i i = i := by
  intro i
  induction i with
  | zero => rw [lcell_zero_right]; exact Nat.cast_zero.symm
  | succ i ih =>
      rw [lcell_succ, if_pos rfl, ih]
      push_cast
      ring

theorem lcell_symm [DecidableEq α] (a b : List α) (d : α) :
    ∀ i j, lcell a b d i j = lcell b a d j i := by
  intro i
  induction i with
  | zero => intro j; rw [lcell_zero_left, lcell_zero_right]
  | succ i ih =>
      intro j
      induction j with
      | zero => rw [lcell_zero_right, lcell_zero_left]
      | succ j ihj =>
          rw [lcell_succ, lcell_succ]
          by_cases h : a.getD i d = b.getD j d
          · rw [if_pos h, if_pos h.symm, ih j]
          · rw [if_neg h, if_neg (fun e => h e.symm), ihj, ih (j+1),
              max_comm]

/-! ## Facts about the similarity cells -/

theorem mcell_nonneg (s : α → α → ℚ) (a b : List α) (d : α) :
    ∀ i j, 0 ≤ mcell s a b d i j := by
  intro i
  induction i with
  | zero => intro j; rw [mcell_zero_left]
  | succ i ih =>
      intro j
      induction j with
      | zero => rw [mcell_zero_right]
      | succ j ihj =>
          rw [mcell_succ]
          exact le_max_of_le_left (le_max_of_le_left ihj)

theorem mcell_le_min (s : α → α → ℚ) (a b : List α) (d : α)
    (hs : ∀ i j, s (a.getD i d) (b.getD j d) ≤ 1) :
    ∀ i j, mcell s a b d i j ≤ ((min i j : ℕ) : ℚ) := by
  intro i
  induction i with
  | zero => intro j; rw [mcell_zero_left]; exact Nat.cast_nonneg _
  | succ i ih =>
      intro j
      induction j with
      | zero => rw [mcell_zero_right]; exact Nat.cast_nonneg _
      | succ j ihj =>
          rw [mcell_succ]
          have hmin : (min (i+1) (j+1)) = min i j + 1 := by omega
          refine max_le (max_le (le_trans ihj ?_) (le_trans (ih (j+1)) ?_)) ?_
          · exact Nat.cast_le.mpr (min_le_min (le_refl _) (by omega))
          · exact Nat.cast_le.mpr (min_le_min (by omega) (le_refl _))
          · rw [hmin, Nat.cast_add, Nat.cast_one]
            linarith [ih j, hs i j]

theorem mcell_diag_ge (s : α → α → ℚ) (a : List α) (d : α) (l : ℕ)
    (hs : ∀ k, k < l → s (a.getD k d) (a.getD k d) = 1) :
    ∀ i, i ≤ l → ((i : ℕ) : ℚ) ≤ mcell s a a d i i := by
  intro i
  induction i with
  | zero => intro _; rw [mcell_zero_right]; exact le_refl _
  | succ i ih =>
      intro hi
      rw [mcell_succ]
      refine le_trans ?_ (le_max_right _ _)
      rw [hs i (by omega)]
      push_cast
      linarith [ih (by omega)]

theorem mcell_symm (s : α → α → ℚ) (a b : List α) (d : α)
    (hs : ∀ i j, s (a.getD i d) (b.getD j d) = s (b.getD j d) (a.getD i d)) :
    ∀ i j, mcell s a b d i j = mcell s b a d j i := by
  intro i
  induction i with
  | zero => intro j; rw [mcell_zero_left, mcell_zero_right]
  | succ i ih =>
      intro j
      induction j with
      | zero => rw [mcell_zero_right, mcell_zero_left]
      | succ j ihj =>
          rw [mcell_succ, mcell_succ, ihj, ih (j+1), ih j, hs i j,
            max_comm (mcell s b a d j (i+1)) (mcell s b a d (j+1) i)]

/-! ## Facts about the local cost and similarity functions -/

theorem ifEq_comm [DecidableEq α] (x y : α) (u v : ℚ) :
    (if x = y then u else v) = (if y = x then u else v) := by
  by_cases h : x = y
  · rw [if_pos h, if_pos h.symm]
  · rw [if_neg h, if_neg (fun e => h e.symm)]

theorem eqCost_nonneg [DecidableEq α] (x y : α) : 0 ≤ eqCost x y := by
  unfold eqCost; split <;> norm_num

theorem eqCost_le_one [DecidableEq α] (x y : α) : eqCost x y ≤ 1 := by
  unfold eqCost; split <;> norm_num

theorem eqCost_self [DecidableEq α] (x : α) : eqCost x x = 0 := by
  simp [eqCost]

theorem eqCost_comm [DecidableEq α] (x y : α) : eqCost x y = eqCost y x :=
  ifEq_comm x y 0 1

theorem diffCost_self (n : ℕ) (g : List Char) : diffCost n g g = 0 := by
  simp [diffCost]

theorem diffCost_nonneg (n : ℕ) (g1 g2 : List Char) : 0 ≤ diffCost n g1 g2 := by
  unfold diffCost
  split
  · exact le_refl 0
  · positivity

theorem diffCost_le_one (n : ℕ) (g1 g2 : List Char) (hn : 0 < n)
    (hl : g1.length ≤ n) : diffCost n g1 g2 ≤ 1 := by
  unfold diffCost
  split
  · norm_num
  · rw [div_le_one (by exact_mod_cast hn)]
    exact_mod_cast le_trans (List.length_filter_le _ _) hl

theorem posCost2_self (g : List Char) : posCost2 g g = 0 := by
  simp [posCost2]

theorem posCost2_nonneg (g1 g2 : List Char) : 0 ≤ posCost2 g1 g2 := by
  unfold posCost2
  split
  · exact le_refl 0
  · have h1 : (0:ℚ) ≤ (if g1.getD 0 padSym = g2.getD 0 padSym then 0 else 1) := by
      split <;> norm_num
    have h2 : (0:ℚ) ≤ (if g1.getD 1 padSym = g2.getD 1 padSym then 0 else 1) := by
      split <;> norm_num
    linarith

theorem posCost2_le_one (g1 g2 : List Char) : posCost2 g1 g2 ≤ 1 := by
  unfold posCost2
  split
  · norm_num
  · have h1 : (if g1.getD 0 padSym = g2.getD 0 padSym then (0:ℚ) else 1) ≤ 1 := by
      split <;> norm_num
    have h2 : (if g1.getD 1 padSym = g2.getD 1 padSym then (0:ℚ) else 1) ≤ 1 := by
      split <;> norm_num
    linarith

theorem posCost2_comm (g1 g2 : List Char) : posCost2 g1 g2 = posCost2 g2 g1 := by
  unfold posCost2
  by_cases h : g1 = g2
  · rw [if_pos h, if_pos h.symm]
  · rw [if_neg h, if_neg (show ¬(g2 = g1) from fun e => h e.symm),
      ifEq_comm (g1.getD 0 padSym) (g2.getD 0 padSym),
      ifEq_comm (g1.getD 1 padSym) (g2.getD 1 padSym)]

theorem posCost3_self (g : List Char) : posCost3 g g = 0 := by
  simp [posCost3]

theorem posCost3_nonneg (g1 g2 : List Char) : 0 ≤ posCost3 g1 g2 := by
  unfold posCost3
  split
  · exact le_refl 0
  · have h1 : (0:ℚ) ≤ (if g1.getD 0 padSym = g2.getD 0 padSym then 0 else 1) := by
      split <;> norm_num
    have h2 : (0:ℚ) ≤ (if g1.getD 1 padSym = g2.getD 1 padSym then 0 else 1) := by
      split <;> norm_num
    have h3 : (0:ℚ) ≤ (if g1.getD 2 padSym = g2.getD 2 padSym then 0 else 1) := by
      split <;> norm_num
    linarith

theorem posCost3_le_one (g1 g2 : List Char) : posCost3 g1 g2 ≤ 1 := by
  unfold posCost3
  split
  · norm_num
  · have h1 : (if g1.getD 0 padSym = g2.getD 0 padSym then (0:ℚ) else 1) ≤ 1 := by
      split <;> norm_num
    have h2 : (if g1.getD 1 padSym = g2.getD 1 padSym then (0:ℚ) else 1) ≤ 1 := by
      split <;> norm_num
    have h3 : (if g1.getD 2 padSym = g2.getD 2 padSym then (0:ℚ) else 1) ≤ 1 := by
      split <;> norm_num
    linarith

theorem posCost3_comm (g1 g2 : List Char) : posCost3 g1 g2 = posCost3 g2 g1 := by
  unfold posCost3
  by_cases h : g1 = g2
  · rw [if_pos h, if_pos h.symm]
  · rw [if_neg h, if_neg (show ¬(g2 = g1) from fun e => h e.symm),
      ifEq_comm (g1.getD 0 padSym) (g2.getD 0 padSym),
      ifEq_comm (g1.getD 1 padSym) (g2.getD 1 padSym),
      ifEq_comm (g1.getD 2 padSym) (g2.getD 2 padSym)]

theorem commonSim_nonneg (n : ℕ) (g1 g2 : List Char) : 0 ≤ commonSim n g1 g2 := by
  unfold commonSim
  positivity

theorem commonSim_le_one (n : ℕ) (g1 g2 : List Char) (hn : 0 < n)
    (hl : g1.length ≤ n) : commonSim n g1 g2 ≤ 1 := by
  unfold commonSim
  rw [div_le_one (by exact_mod_cast hn)]
  exact_mod_cast le_trans (List.length_filter_le _ _) hl

theorem commonSim_self (n : ℕ) (g : List Char) (hn : 0 < n)
    (hl : g.length = n) : commonSim n g g = 1 := by
  unfold commonSim
  have hf : g.filter (fun k => decide (k ∈ g)) = g :=
    List.filter_eq_self.mpr (fun x hx => decide_eq_true hx)
  rw [hf, hl, div_self (by exact_mod_cast hn.ne.symm)]

theorem posSim2_nonneg (g1 g2 : List Char) : 0 ≤ posSim2 g1 g2 := by
  unfold posSim2
  have h1 : (0:ℚ) ≤ (if g1.getD 0 padSym = g2.getD 0 padSym then 1 else 0) := by
    split <;> norm_num
  have h2 : (0:ℚ) ≤ (if g1.getD 1 padSym = g2.getD 1 padSym then 1 else 0) := by
    split <;> norm_num
  linarith

theorem posSim2_le_one (g1 g2 : List Char) : posSim2 g1 g2 ≤ 1 := by
  unfold posSim2
  have h1 : (if g1.getD 0 padSym = g2.getD 0 padSym then (1:ℚ) else 0) ≤ 1 := by
    split <;> norm_num
  have h2 : (if g1.getD 1 padSym = g2.getD 1 padSym then (1:ℚ) else 0) ≤ 1 := by
    split <;> norm_num
  linarith

theorem posSim2_self (g : List Char) : posSim2 g g = 1 := by
  simp [posSim2]

theorem posSim2_comm (g1 g2 : List Char) : posSim2 g1 g2 = posSim2 g2 g1 := by
  unfold posSim2
  rw [ifEq_comm (g1.getD 0 padSym) (g2.getD 0 padSym),
    ifEq_comm (g1.getD 1 padSym) (g2.getD 1 padSym)]

theorem posSim3_nonneg (g1 g2 : List Char) : 0 ≤ posSim3 g1 g2 := by
  unfold posSim3
  have h1 : (0:ℚ) ≤ (if g1.getD 0 padSym = g2.getD 0 padSym then 1 else 0) := by
    split <;> norm_num
  have h2 : (0:ℚ) ≤ (if g1.getD 1 padSym = g2.getD 1 padSym then 1 else 0) := by
    split <;> norm_num
  have h3 : (0:ℚ) ≤ (if g1.getD 2 padSym = g2.getD 2 padSym then 1 else 0) := by
    split <;> norm_num
  linarith

theorem posSim3_le_one (g1 g2 : List Char) : posSim3 g1 g2 ≤ 1 := by
  unfold posSim3
  have h1 : (if g1.getD 0 padSym = g2.getD 0 padSym then (1:ℚ) else 0) ≤ 1 := by
    split <;> norm_num
  have h2 : (if g1.getD 1 padSym = g2.getD 1 padSym then (1:ℚ) else 0) ≤ 1 := by
    split <;> norm_num
  have h3 : (if g1.getD 2 padSym = g2.getD 2 padSym then (1:ℚ) else 0) ≤ 1 := by
    split <;> norm_num
  linarith

theorem posSim3_self (g : List Char) : posSim3 g g = 1 := by
  simp [posSim3]
  norm_num

theorem posSim3_comm (g1 g2 : List Char) : posSim3 g1 g2 = posSim3 g2 g1 := by
  unfold posSim3
  rw [ifEq_comm (g1.getD 0 padSym) (g2.getD 0 padSym),
    ifEq_comm (g1.getD 1 padSym) (g2.getD 1 padSym),
    ifEq_comm (g1.getD 2 padSym) (g2.getD 2 padSym)]

/-! ## Facts about n-gram extraction -/

theorem ngrams_length (pad : α) (n : ℕ) (s : List α) (hn : 1 ≤ n) :
    (ngrams pad n s).length = s.length + n - 1 := by
  simp only [ngrams, List.length_map, List.length_range, padded,
    List.length_append, List.length_replicate]
  omega

theorem mem_ngrams_length (pad : α) (n : ℕ) (s : List α) (g : List α)
    (hg : g ∈ ngrams pad n s) : g.length = n := by
  simp only [ngrams, List.mem_map, List.mem_range] at hg
  obtain ⟨i, hi, rfl⟩ := hg
  simp only [window, List.length_take, List.length_drop]
  omega

theorem ngrams_getD_length_le (pad : α) (n : ℕ) (s : List α) (k : ℕ) :
    ((ngrams pad n s).getD k []).length ≤ n := by
  by_cases hk : k < (ngrams pad n s).length
  · rw [List.getD_eq_getElem _ _ hk]
    exact le_of_eq (mem_ngrams_length pad n s _ (List.getElem_mem hk))
  · rw [List.getD_eq_default _ _ (by omega)]
    exact Nat.zero_le n

theorem ngrams_getD_length_eq (pad : α) (n : ℕ) (s : List α) (k : ℕ)
    (hk : k < (ngrams pad n s).length) :
    ((ngrams pad n s).getD k []).length = n := by
  rw [List.getD_eq_getElem _ _ hk]
  exact mem_ngrams_length pad n s _ (List.getElem_mem hk)

/-! ## Facts about the overlap counts -/

theorem overlap_comm [DecidableEq κ] (xs ys : List κ) :
    overlap xs ys = overlap ys xs := by
  unfold overlap
  rw [Finset.inter_comm]
  exact Finset.sum_congr rfl (fun k _ => min_comm _ _)

theorem overlap_le_left [DecidableEq κ] (xs ys : List κ) :
    overlap xs ys ≤ xs.length := by
  unfold overlap
  calc ∑ k ∈ xs.toFinset ∩ ys.toFinset, min (xs.count k) (ys.count k)
      ≤ ∑ k ∈ xs.toFinset ∩ ys.toFinset, xs.count k :=
        Finset.sum_le_sum (fun k _ => min_le_left _ _)
    _ ≤ ∑ k ∈ xs.toFinset, xs.count k :=
        Finset.sum_le_sum_of_subset (Finset.inter_subset_left)
    _ = xs.length := List.sum_toFinset_count_eq_length xs

theorem overlap_le_right [DecidableEq κ] (xs ys : List κ) :
    overlap xs ys ≤ ys.length := by
  rw [overlap_comm]
  exact overlap_le_left ys xs

theorem overlap_nil_left [DecidableEq κ] (ys : List κ) :
    overlap ([] : List κ) ys = 0 := by
  simp [overlap]

theorem bigrams_length (xs : List Char) : (bigrams xs).length = xs.length - 1 := by
  simp [bigrams]

theorem skipgrams_length (xs : List Char) :
    (skipgrams xs).length = xs.length - 2 := by
  simp [skipgrams]

theorem trigramsOf_length (xs : List Char) :
    (trigramsOf xs).length = xs.length - 2 := by
  simp [trigramsOf]

theorem bigrams_nil : bigrams [] = [] := rfl

/-! ## Output wrappers: commutation in the two length arguments -/

theorem distOut_comm (norm : Bool) (r : ℚ) (la lb : ℕ) :
    distOut norm r la lb = distOut norm r lb la := by
  unfold distOut
  rw [Nat.max_comm la lb]

theorem simOut_comm (norm : Bool) (m : ℚ) (la lb : ℕ) :
    simOut norm m la lb = simOut norm m lb la := by
  unfold simOut
  rw [Nat.max_comm la lb]

/-! ## Symmetry of the individual metrics -/

theorem ldn_symm (norm : Bool) (a b : List Char) : ldn norm a b = ldn norm b a := by
  unfold ldn
  rw [dcell_symm eqCost a b padSym (fun i j => eqCost_comm _ _) a.length b.length,
    distOut_comm]

theorem ldn_swap_symm (norm : Bool) (a b : List Char) :
    ldn_swap norm a b = ldn_swap norm b a := by
  unfold ldn_swap
  rw [wcell_symm a b padSym a.length b.length, distOut_comm]

theorem bidist1_symm (norm : Bool) (a b : List Char) :
    bidist1 norm a b = bidist1 norm b a := by
  unfold bidist1
  rw [dcell_symm eqCost (ngrams padSym 2 a) (ngrams padSym 2 b) []
    (fun i j => eqCost_comm _ _), distOut_comm]

theorem tridist1_symm (norm : Bool) (a b : List Char) :
    tridist1 norm a b = tridist1 norm b a := by
  unfold tridist1
  rw [dcell_symm eqCost (ngrams padSym 3 a) (ngrams padSym 3 b) []
    (fun i j => eqCost_comm _ _), distOut_comm]

theorem bidist3_symm (norm : Bool) (a b : List Char) :
    bidist3 norm a b = bidist3 norm b a := by
  unfold bidist3
  rw [dcell_symm posCost2 (ngrams padSym 2 a) (ngrams padSym 2 b) []
    (fun i j => posCost2_comm _ _), distOut_comm]

theorem tridist3_symm (norm : Bool) (a b : List Char) :
    tridist3 norm a b = tridist3 norm b a := by
  unfold tridist3
  rw [dcell_symm posCost3 (ngrams padSym 3 a) (ngrams padSym 3 b) []
    (fun i j => posCost3_comm _ _), distOut_comm]

theorem lcs_symm (norm : Bool) (a b : List Char) : lcs norm a b = lcs norm b a := by
  unfold lcs
  rw [lcell_symm a b padSym a.length b.length, simOut_comm]

theorem bisim1_symm (norm : Bool) (a b : List Char) :
    bisim1 norm a b = bisim1 norm b a := by
  unfold bisim1
  rw [lcell_symm (ngrams padSym 2 a) (ngrams padSym 2 b) [] a.length b.length,
    simOut_comm]

theorem trisim1_symm (norm : Bool) (a b : List Char) :
    trisim1 norm a b = trisim1 norm b a := by
  unfold trisim1
  rw [lcell_symm (ngrams padSym 3 a) (ngrams padSym 3 b) [] a.length b.length,
    simOut_comm]

theorem bisim3_symm (norm : Bool) (a b : List Char) :
    bisim3 norm a b = bisim3 norm b a := by
  unfold bisim3
  rw [mcell_symm posSim2 (ngrams padSym 2 a) (ngrams padSym 2 b) []
    (fun i j => posSim2_comm _ _) a.length b.length, simOut_comm]

theorem trisim3_symm (norm : Bool) (a b : List Char) :
    trisim3 norm a b = trisim3 norm b a := by
  unfold trisim3
  rw [mcell_symm posSim3 (ngrams padSym 3 a) (ngrams padSym 3 b) []
    (fun i j => posSim3_comm _ _) a.length b.length, simOut_comm]

theorem dice_symm (norm : Bool) (a b : List Char) : dice norm a b = dice norm b a := by
  unfold dice
  conv_rhs => rw [overlap_comm (bigrams b) (bigrams a),
    add_comm ((b.length : ℤ) - 1) ((a.length : ℤ) - 1)]

theorem jcd_symm (norm : Bool) (a b : List Char) : jcd norm a b = jcd norm b a := by
  unfold jcd
  conv_rhs => rw [overlap_comm (bigrams b) (bigrams a),
    add_comm ((b.length : ℤ) - 1) ((a.length : ℤ) - 1)]

theorem prefCount_comm (a b : List Char) : prefCount a b = prefCount b a := by
  unfold prefCount
  rw [Nat.min_comm a.length b.length]
  congr 1
  apply List.filter_congr
  intro i _
  exact decide_eq_decide.mpr eq_comm

theorem prefixDist_symm (norm : Bool) (a b : List Char) :
    prefixDist norm a b = prefixDist norm b a := by
  unfold prefixDist
  rw [prefCount_comm, Nat.max_comm a.length b.length]

theorem xdice_symm (norm : Bool) (a b : List Char) :
    xdice norm a b = xdice norm b a := by
  unfold xdice
  by_cases h : ((a.length : ℤ) - 2) + ((b.length : ℤ) - 2) = 0 ∨
      (a.length : ℤ) - 2 < 1 ∨ (b.length : ℤ) - 2 < 1
  · rw [if_pos h, if_pos (show ((b.length : ℤ) - 2) + ((a.length : ℤ) - 2) = 0 ∨
      (b.length : ℤ) - 2 < 1 ∨ (a.length : ℤ) - 2 < 1 by omega)]
  · rw [if_neg h, if_neg (show ¬(((b.length : ℤ) - 2) + ((a.length : ℤ) - 2) = 0 ∨
      (b.length : ℤ) - 2 < 1 ∨ (a.length : ℤ) - 2 < 1) by omega)]
    conv_rhs => rw [overlap_comm (skipgrams b) (skipgrams a),
      add_comm ((b.length : ℤ) - 2) ((a.length : ℤ) - 2)]

theorem trigram_symm (norm : Bool) (a b : List Char) :
    trigram norm a b = trigram norm b a := by
  unfold trigram
  by_cases h : ((a.length : ℤ) - 2) + ((b.length : ℤ) - 2) = 0 ∨
      (a.length : ℤ) - 2 < 1 ∨ (b.length : ℤ) - 2 < 1
  · rw [if_pos h, if_pos (show ((b.length : ℤ) - 2) + ((a.length : ℤ) - 2) = 0 ∨
      (b.length : ℤ) - 2 < 1 ∨ (a.length : ℤ) - 2 < 1 by omega)]
  · rw [if_neg h, if_neg (show ¬(((b.length : ℤ) - 2) + ((a.length : ℤ) - 2) = 0 ∨
      (b.length : ℤ) - 2 < 1 ∨ (a.length : ℤ) - 2 < 1) by omega)]
    conv_rhs => rw [overlap_comm (trigramsOf b) (trigramsOf a),
      add_comm ((b.length : ℤ) - 2) ((a.length : ℤ) - 2)]

theorem ident_symm (norm : Bool) (a b : List Char) :
    ident norm a b = ident norm b a := by
  unfold ident
  rw [ifEq_comm a b 1 0]

theorem xxOverlap_comm (a b : List Char) : xxOverlap a b = xxOverlap b a := by
  unfold xxOverlap
  rw [Finset.inter_comm]
  refine Finset.sum_congr rfl (fun k _ => ?_)
  conv_rhs => rw [Finset.sum_comm]
  refine Finset.sum_congr rfl (fun m _ => Finset.sum_congr rfl (fun n _ => ?_))
  congr 1
  ring

theorem xxdice_symm (norm : Bool) (a b : List Char) :
    xxdice norm a b = xxdice norm b a := by
  unfold xxdice
  conv_rhs => rw [xxOverlap_comm b a,
    add_comm ((b.length : ℤ) - 1) ((a.length : ℤ) - 1)]

/-! ## Raw-mode self-comparison of the matrix metrics -/

theorem distOut_false (r : ℚ) (la lb : ℕ) : distOut false r la lb = some r := rfl

theorem simOut_false (m : ℚ) (la lb : ℕ) :
    simOut false m la lb = some ((max la lb : ℕ) - m) := rfl

theorem ldn_self (a : List Char) : ldn false a a = some 0 := by
  unfold ldn
  rw [distOut_false,
    dcell_diag eqCost a padSym (fun i => eqCost_self _)
      (fun i j => eqCost_nonneg _ _) a.length]

theorem ldn_swap_self (a : List Char) : ldn_swap false a a = some 0 := by
  unfold ldn_swap
  rw [distOut_false, wcell_diag a padSym a.length]

theorem bidist1_self (a : List Char) : bidist1 false a a = some 0 := by
  unfold bidist1
  rw [distOut_false,
    dcell_diag eqCost (ngrams padSym 2 a) [] (fun i => eqCost_self _)
      (fun i j => eqCost_nonneg _ _) (ngrams padSym 2 a).length]

theorem tridist1_self (a : List Char) : tridist1 false a a = some 0 := by
  unfold tridist1
  rw [distOut_false,
    dcell_diag eqCost (ngrams padSym 3 a) [] (fun i => eqCost_self _)
      (fun i j => eqCost_nonneg _ _) (ngrams padSym 3 a).length]

theorem bidist2_self (a : List Char) : bidist2 false a a = some 0 := by
  unfold bidist2
  rw [distOut_false,
    dcell_diag (diffCost 2) (ngrams padSym 2 a) [] (fun i => diffCost_self 2 _)
      (fun i j => diffCost_nonneg 2 _ _) ((ngrams padSym 2 a).length - 1)]

theorem tridist2_self (a : List Char) : tridist2 false a a = some 0 := by
  unfold tridist2
  rw [distOut_false,
    dcell_diag (diffCost 3) (ngrams padSym 3 a) [] (fun i => diffCost_self 3 _)
      (fun i j => diffCost_nonneg 3 _ _) ((ngrams padSym 3 a).length - 1)]

theorem bidist3_self (a : List Char) : bidist3 false a a = some 0 := by
  unfold bidist3
  rw [distOut_false,
    dcell_diag posCost2 (ngrams padSym 2 a) [] (fun i => posCost2_self _)
      (fun i j => posCost2_nonneg _ _) ((ngrams padSym 2 a).length - 1)]

theorem tridist3_self (a : List Char) : tridist3 false a a = some 0 := by
  unfold tridist3
  rw [distOut_false,
    dcell_diag posCost3 (ngrams padSym 3 a) [] (fun i => posCost3_self _)
      (fun i j => posCost3_nonneg _ _) ((ngrams padSym 3 a).length - 1)]

theorem lcs_self (a : List Char) : lcs false a a = some 0 := by
  unfold lcs
  rw [simOut_false, lcell_diag a padSym a.length, Nat.max_self, sub_self]

theorem bisim1_self (a : List Char) : bisim1 false a a = some 0 := by
  unfold bisim1
  rw [simOut_false, lcell_diag (ngrams padSym 2 a) [] a.length, Nat.max_self,
    sub_self]

theorem trisim1_self (a : List Char) : trisim1 false a a = some 0 := by
  unfold trisim1
  rw [simOut_false, lcell_diag (ngrams padSym 3 a) [] a.length, Nat.max_self,
    sub_self]

theorem bisim2_self (a : List Char) : bisim2 false a a = some 0 := by
  unfold bisim2
  rw [simOut_false, Nat.max_self]
  have hub : mcell (commonSim 2) (ngrams padSym 2 a) (ngrams padSym 2 a) []
      a.length a.length ≤ ((min a.length a.length : ℕ) : ℚ) :=
    mcell_le_min _ _ _ _
      (fun i j => commonSim_le_one 2 _ _ (by norm_num)
        (ngrams_getD_length_le padSym 2 a i)) a.length a.length
  have hlb : ((a.length : ℕ) : ℚ) ≤ mcell (commonSim 2) (ngrams padSym 2 a)
      (ngrams padSym 2 a) [] a.length a.length :=
    mcell_diag_ge _ _ _ a.length
      (fun k hk => commonSim_self 2 _ (by norm_num)
        (ngrams_getD_length_eq padSym 2 a k
          (by rw [ngrams_length padSym 2 a (by norm_num)]; omega)))
      a.length (le_refl _)
  rw [Nat.min_self] at hub
  have : mcell (commonSim 2) (ngrams padSym 2 a) (ngrams padSym 2 a) []
      a.length a.length = ((a.length : ℕ) : ℚ) := le_antisymm hub hlb
  rw [this, sub_self]

theorem trisim2_self (a : List Char) : trisim2 false a a = some 0 := by
  unfold trisim2
  rw [simOut_false, Nat.max_self]
  have hub : mcell (commonSim 3) (ngrams padSym 3 a) (ngrams padSym 3 a) []
      a.length a.length ≤ ((min a.length a.length : ℕ) : ℚ) :=
    mcell_le_min _ _ _ _
      (fun i j => commonSim_le_one 3 _ _ (by norm_num)
        (ngrams_getD_length_le padSym 3 a i)) a.length a.length
  have hlb : ((a.length : ℕ) : ℚ) ≤ mcell (commonSim 3) (ngrams padSym 3 a)
      (ngrams padSym 3 a) [] a.length a.length :=
    mcell_diag_ge _ _ _ a.length
      (fun k hk => commonSim_self 3 _ (by norm_num)
        (ngrams_getD_length_eq padSym 3 a k
          (by rw [ngrams_length padSym 3 a (by norm_num)]; omega)))
      a.length (le_refl _)
  rw [Nat.min_self] at hub
  have : mcell (commonSim 3) (ngrams padSym 3 a) (ngrams padSym 3 a) []
      a.length a.length = ((a.length : ℕ) : ℚ) := le_antisymm hub hlb
  rw [this, sub_self]

theorem bisim3_self (a : List Char) : bisim3 false a a = some 0 := by
  unfold bisim3
  rw [simOut_false, Nat.max_self]
  have hub : mcell posSim2 (ngrams padSym 2 a) (ngrams padSym 2 a) []
      a.length a.length ≤ ((min a.length a.length : ℕ) : ℚ) :=
    mcell_le_min _ _ _ _ (fun i j => posSim2_le_one _ _) a.length a.length
  have hlb : ((a.length : ℕ) : ℚ) ≤ mcell posSim2 (ngrams padSym 2 a)
      (ngrams padSym 2 a) [] a.length a.length :=
    mcell_diag_ge _ _ _ a.length (fun k hk => posSim2_self _) a.length (le_refl _)
  rw [Nat.min_self] at hub
  have : mcell posSim2 (ngrams padSym 2 a) (ngrams padSym 2 a) []
      a.length a.length = ((a.length : ℕ) : ℚ) := le_antisymm hub hlb
  rw [this, sub_self]

theorem trisim3_self (a : List Char) : trisim3 false a a = some 0 := by
  unfold trisim3
  rw [simOut_false, Nat.max_self]
  have hub : mcell posSim3 (ngrams padSym 3 a) (ngrams padSym 3 a) []
      a.length a.length ≤ ((min a.length a.length : ℕ) : ℚ) :=
    mcell_le_min _ _ _ _ (fun i j => posSim3_le_one _ _) a.length a.length
  have hlb : ((a.length : ℕ) : ℚ) ≤ mcell posSim3 (ngrams padSym 3 a)
      (ngrams padSym 3 a) [] a.length a.length :=
    mcell_diag_ge _ _ _ a.length (fun k hk => posSim3_self _) a.length (le_refl _)
  rw [Nat.min_self] at hub
  have : mcell posSim3 (ngrams padSym 3 a) (ngrams padSym 3 a) []
      a.length a.length = ((a.length : ℕ) : ℚ) := le_antisymm hub hlb
  rw [this, sub_self]

/-! ## Range of the returned scores

`nonnegRes o` says every value that `o` actually returns is nonnegative;
`unitRes o` says it lies in `[0, 1]`.  A `none` (a raised
`ZeroDivisionError`) satisfies both vacuously: no value is returned. -/

def nonnegRes (o : Option ℚ) : Prop := ∀ r, o = some r → 0 ≤ r

def unitRes (o : Option ℚ) : Prop := ∀ r, o = some r → 0 ≤ r ∧ r ≤ 1

theorem distOut_bounds (r : ℚ) (la lb : ℕ) (h0 : 0 ≤ r)
    (h1 : r ≤ ((max la lb : ℕ) : ℚ)) :
    nonnegRes (distOut false r la lb) ∧ unitRes (distOut true r la lb) := by
  constructor
  · intro x hx
    rw [distOut_false] at hx
    obtain rfl := Option.some.inj hx
    exact h0
  · intro x hx
    unfold distOut qdiv at hx
    rw [if_pos rfl] at hx
    split at hx
    · exact absurd hx (by simp)
    · next hne =>
      obtain rfl := Option.some.inj hx
      have hpos : (0:ℚ) < ((max la lb : ℕ) : ℚ) :=
        lt_of_le_of_ne (Nat.cast_nonneg _) (Ne.symm hne)
      exact ⟨div_nonneg h0 (le_of_lt hpos), (div_le_one hpos).mpr h1⟩

theorem simOut_bounds (m : ℚ) (la lb : ℕ) (h0 : 0 ≤ m)
    (h1 : m ≤ ((max la lb : ℕ) : ℚ)) :
    nonnegRes (simOut false m la lb) ∧ unitRes (simOut true m la lb) := by
  constructor
  · intro x hx
    rw [simOut_false] at hx
    obtain rfl := Option.some.inj hx
    linarith
  · intro x hx
    unfold simOut qdiv at hx
    rw [if_pos rfl] at hx
    split at hx
    · exact absurd hx (by simp)
    · next hne =>
      simp only [Option.map_some'] at hx
      obtain rfl := Option.some.inj hx
      have hpos : (0:ℚ) < ((max la lb : ℕ) : ℚ) :=
        lt_of_le_of_ne (Nat.cast_nonneg _) (Ne.symm hne)
      constructor
      · have := (div_le_one hpos).mpr h1
        linarith
      · have := div_nonneg h0 (le_of_lt hpos)
        linarith

theorem ldn_bounds (a b : List Char) :
    nonnegRes (ldn false a b) ∧ unitRes (ldn true a b) := by
  unfold ldn
  exact distOut_bounds _ _ _
    (dcell_nonneg eqCost a b padSym (fun i j => eqCost_nonneg _ _) _ _)
    (dcell_le_max eqCost a b padSym (fun i j => eqCost_le_one _ _) _ _)

theorem ldn_swap_bounds (a b : List Char) :
    nonnegRes (ldn_swap false a b) ∧ unitRes (ldn_swap true a b) := by
  unfold ldn_swap
  exact distOut_bounds _ _ _ (wcell_nonneg a b padSym _ _)
    (le_trans (wcell_le_dcell a b padSym _ _)
      (dcell_le_max eqCost a b padSym (fun i j => eqCost_le_one _ _) _ _))

theorem bidist1_bounds (a b : List Char) :
    nonnegRes (bidist1 false a b) ∧ unitRes (bidist1 true a b) := by
  unfold bidist1
  exact distOut_bounds _ _ _
    (dcell_nonneg eqCost _ _ [] (fun i j => eqCost_nonneg _ _) _ _)
    (dcell_le_max eqCost _ _ [] (fun i j => eqCost_le_one _ _) _ _)

theorem tridist1_bounds (a b : List Char) :
    nonnegRes (tridist1 false a b) ∧ unitRes (tridist1 true a b) := by
  unfold tridist1
  exact distOut_bounds _ _ _
    (dcell_nonneg eqCost _ _ [] (fun i j => eqCost_nonneg _ _) _ _)
    (dcell_le_max eqCost _ _ [] (fun i j => eqCost_le_one _ _) _ _)

theorem bidist2_bounds (a b : List Char) :
    nonnegRes (bidist2 false a b) ∧ unitRes (bidist2 true a b) := by
  unfold bidist2
  exact distOut_bounds _ _ _
    (dcell_nonneg (diffCost 2) _ _ [] (fun i j => diffCost_nonneg 2 _ _) _ _)
    (dcell_le_max (diffCost 2) _ _ []
      (fun i j => diffCost_le_one 2 _ _ (by norm_num)
        (ngrams_getD_length_le padSym 2 a i)) _ _)

theorem tridist2_bounds (a b : List Char) :
    nonnegRes (tridist2 false a b) ∧ unitRes (tridist2 true a b) := by
  unfold tridist2
  exact distOut_bounds _ _ _
    (dcell_nonneg (diffCost 3) _ _ [] (fun i j => diffCost_nonneg 3 _ _) _ _)
    (dcell_le_max (diffCost 3) _ _ []
      (fun i j => diffCost_le_one 3 _ _ (by norm_num)
        (ngrams_getD_length_le padSym 3 a i)) _ _)

theorem bidist3_bounds (a b : List Char) :
    nonnegRes (bidist3 false a b) ∧ unitRes (bidist3 true a b) := by
  unfold bidist3
  exact distOut_bounds _ _ _
    (dcell_nonneg posCost2 _ _ [] (fun i j => posCost2_nonneg _ _) _ _)
    (dcell_le_max posCost2 _ _ [] (fun i j => posCost2_le_one _ _) _ _)

theorem tridist3_bounds (a b : List Char) :
    nonnegRes (tridist3 false a b) ∧ unitRes (tridist3 true a b) := by
  unfold tridist3
  exact distOut_bounds _ _ _
    (dcell_nonneg posCost3 _ _ [] (fun i j => posCost3_nonneg _ _) _ _)
    (dcell_le_max posCost3 _ _ [] (fun i j => posCost3_le_one _ _) _ _)

theorem lcs_bounds (a b : List Char) :
    nonnegRes (lcs false a b) ∧ unitRes (lcs true a b) := by
  unfold lcs
  exact simOut_bounds _ _ _ (lcell_nonneg a b padSym _ _)
    (le_trans (lcell_le_min a b padSym _ _) (Nat.cast_le.mpr min_le_max))

theorem bisim1_bounds (a b : List Char) :
    nonnegRes (bisim1 false a b) ∧ unitRes (bisim1 true a b) := by
  unfold bisim1
  exact simOut_bounds _ _ _ (lcell_nonneg _ _ [] _ _)
    (le_trans (lcell_le_min _ _ [] a.length b.length)
      (Nat.cast_le.mpr min_le_max))

theorem trisim1_bounds (a b : List Char) :
    nonnegRes (trisim1 false a b) ∧ unitRes (trisim1 true a b) := by
  unfold trisim1
  exact simOut_bounds _ _ _ (lcell_nonneg _ _ [] _ _)
    (le_trans (lcell_le_min _ _ [] a.length b.length)
      (Nat.cast_le.mpr min_le_max))

theorem bisim2_bounds (a b : List Char) :
    nonnegRes (bisim2 false a b) ∧ unitRes (bisim2 true a b) := by
  unfold bisim2
  exact simOut_bounds _ _ _ (mcell_nonneg _ _ _ [] _ _)
    (le_trans (mcell_le_min _ _ _ []
        (fun i j => commonSim_le_one 2 _ _ (by norm_num)
          (ngrams_getD_length_le padSym 2 a i)) a.length b.length)
      (Nat.cast_le.mpr min_le_max))

theorem trisim2_bounds (a b : List Char) :
    nonnegRes (trisim2 false a b) ∧ unitRes (trisim2 true a b) := by
  unfold trisim2
  exact simOut_bounds _ _ _ (mcell_nonneg _ _ _ [] _ _)
    (le_trans (mcell_le_min _ _ _ []
        (fun i j => commonSim_le_one 3 _ _ (by norm_num)
          (ngrams_getD_length_le padSym 3 a i)) a.length b.length)
      (Nat.cast_le.mpr min_le_max))

theorem bisim3_bounds (a b : List Char) :
    nonnegRes (bisim3 false a b) ∧ unitRes (bisim3 true a b) := by
  unfold bisim3
  exact simOut_bounds _ _ _ (mcell_nonneg _ _ _ [] _ _)
    (le_trans (mcell_le_min _ _ _ [] (fun i j => posSim2_le_one _ _)
        a.length b.length)
      (Nat.cast_le.mpr min_le_max))

theorem trisim3_bounds (a b : List Char) :
    nonnegRes (trisim3 false a b) ∧ unitRes (trisim3 true a b) := by
  unfold trisim3
  exact simOut_bounds _ _ _ (mcell_nonneg _ _ _ [] _ _)
    (le_trans (mcell_le_min _ _ _ [] (fun i j => posSim3_le_one _ _)
        a.length b.length)
      (Nat.cast_le.mpr min_le_max))

theorem prefCount_le_min (a b : List Char) :
    prefCount a b ≤ min a.length b.length := by
  unfold prefCount
  calc ((List.range (min a.length b.length)).filter
        (fun i => a.getD i padSym = b.getD i padSym)).length
      ≤ (List.range (min a.length b.length)).length := List.length_filter_le _ _
    _ = min a.length b.length := List.length_range _

theorem prefixDist_bounds (a b : List Char) :
    nonnegRes (prefixDist false a b) ∧ unitRes (prefixDist true a b) := by
  have hle : ((prefCount a b : ℕ) : ℚ) ≤ ((max a.length b.length : ℕ) : ℚ) :=
    Nat.cast_le.mpr (le_trans (prefCount_le_min a b) min_le_max)
  constructor
  · intro x hx
    unfold prefixDist at hx
    rw [if_neg Bool.false_ne_true] at hx
    obtain rfl := Option.some.inj hx
    linarith
  · intro x hx
    unfold prefixDist qdiv at hx
    rw [if_pos rfl] at hx
    split at hx
    · exact absurd hx (by simp)
    · next hne =>
      simp only [Option.map_some'] at hx
      obtain rfl := Option.some.inj hx
      have hpos : (0:ℚ) < ((max a.length b.length : ℕ) : ℚ) :=
        lt_of_le_of_ne (Nat.cast_nonneg _) (Ne.symm hne)
      constructor
      · have := (div_le_one hpos).mpr hle
        linarith
      · have := div_nonneg (Nat.cast_nonneg (prefCount a b)) (le_of_lt hpos)
        linarith

theorem ident_bounds (norm : Bool) (a b : List Char) :
    unitRes (ident norm a b) := by
  intro x hx
  unfold ident at hx
  obtain rfl := Option.some.inj hx
  split <;> norm_num

/-! ## Bounds for the overlap metrics -/

theorem dice_raw_nonneg (a b : List Char) (ha : a ≠ []) (hb : b ≠ []) :
    nonnegRes (dice false a b) := by
  intro x hx
  unfold dice at hx
  split at hx
  · obtain rfl := Option.some.inj hx
    exact le_refl 0
  · rw [if_neg Bool.false_ne_true] at hx
    obtain rfl := Option.some.inj hx
    have h1 := overlap_le_left (bigrams a) (bigrams b)
    have h2 := overlap_le_right (bigrams a) (bigrams b)
    rw [bigrams_length] at h1
    rw [bigrams_length] at h2
    have hla : 1 ≤ a.length := List.length_pos.mpr ha
    have hlb : 1 ≤ b.length := List.length_pos.mpr hb
    have key : (2 * (overlap (bigrams a) (bigrams b)) : ℤ) ≤
        ((a.length : ℤ) - 1) + ((b.length : ℤ) - 1) := by omega
    have keyq : (2 * (overlap (bigrams a) (bigrams b)) : ℚ) ≤
        ((((a.length : ℤ) - 1) + ((b.length : ℤ) - 1) : ℤ) : ℚ) := by
      exact_mod_cast key
    linarith

theorem dice_unit (a b : List Char) : unitRes (dice true a b) := by
  intro x hx
  unfold dice at hx
  split at hx
  · obtain rfl := Option.some.inj hx
    norm_num
  · next hne =>
    rw [if_pos rfl] at hx
    obtain rfl := Option.some.inj hx
    by_cases hoz : overlap (bigrams a) (bigrams b) = 0
    · rw [hoz]
      norm_num
    · have h1 := overlap_le_left (bigrams a) (bigrams b)
      have h2 := overlap_le_right (bigrams a) (bigrams b)
      rw [bigrams_length] at h1
      rw [bigrams_length] at h2
      have key : (0:ℤ) < ((a.length : ℤ) - 1) + ((b.length : ℤ) - 1) ∧
          (2 * (overlap (bigrams a) (bigrams b)) : ℤ) ≤
            ((a.length : ℤ) - 1) + ((b.length : ℤ) - 1) := by omega
      have hTpos : (0:ℚ) < ((((a.length : ℤ) - 1) + ((b.length : ℤ) - 1) : ℤ) : ℚ) := by
        exact_mod_cast key.1
      have h2o : (2 * (overlap (bigrams a) (bigrams b)) : ℚ) ≤
          ((((a.length : ℤ) - 1) + ((b.length : ℤ) - 1) : ℤ) : ℚ) := by
        exact_mod_cast key.2
      constructor
      · have := (div_le_one hTpos).mpr h2o
        linarith
      · have : 0 ≤ (2 * (overlap (bigrams a) (bigrams b)) : ℚ) /
            ((((a.length : ℤ) - 1) + ((b.length : ℤ) - 1) : ℤ) : ℚ) :=
          div_nonneg (by positivity) (le_of_lt hTpos)
        linarith

theorem jcd_raw_nonneg (a b : List Char) (ha : a ≠ []) (hb : b ≠ []) :
    nonnegRes (jcd false a b) := by
  intro x hx
  unfold jcd at hx
  split at hx
  · obtain rfl := Option.some.inj hx
    exact le_refl 0
  · rw [if_neg Bool.false_ne_true] at hx
    obtain rfl := Option.some.inj hx
    have h1 := overlap_le_left (bigrams a) (bigrams b)
    have h2 := overlap_le_right (bigrams a) (bigrams b)
    rw [bigrams_length] at h1
    rw [bigrams_length] at h2
    have hla : 1 ≤ a.length := List.length_pos.mpr ha
    have hlb : 1 ≤ b.length := List.length_pos.mpr hb
    have key : ((overlap (bigrams a) (bigrams b)) : ℤ) ≤
        ((a.length : ℤ) - 1) + ((b.length : ℤ) - 1)
          - (overlap (bigrams a) (bigrams b) : ℤ) := by omega
    have keyq : ((overlap (bigrams a) (bigrams b)) : ℚ) ≤
        ((((a.length : ℤ) - 1) + ((b.length : ℤ) - 1)
          - (overlap (bigrams a) (bigrams b) : ℤ) : ℤ) : ℚ) := by
      exact_mod_cast key
    linarith

theorem jcd_unit (a b : List Char) : unitRes (jcd true a b) := by
  intro x hx
  unfold jcd at hx
  split at hx
  · obtain rfl := Option.some.inj hx
    norm_num
  · next hne =>
    rw [if_pos rfl] at hx
    obtain rfl := Option.some.inj hx
    by_cases hoz : overlap (bigrams a) (bigrams b) = 0
    · rw [hoz] at hne ⊢
      norm_num
    · have h1 := overlap_le_left (bigrams a) (bigrams b)
      have h2 := overlap_le_right (bigrams a) (bigrams b)
      rw [bigrams_length] at h1
      rw [bigrams_length] at h2
      have key : (0:ℤ) < ((a.length : ℤ) - 1) + ((b.length : ℤ) - 1)
            - (overlap (bigrams a) (bigrams b) : ℤ) ∧
          ((overlap (bigrams a) (bigrams b)) : ℤ) ≤
            ((a.length : ℤ) - 1) + ((b.length : ℤ) - 1)
              - (overlap (bigrams a) (bigrams b) : ℤ) := by omega
      have hTpos : (0:ℚ) < ((((a.length : ℤ) - 1) + ((b.length : ℤ) - 1)
          - (overlap (bigrams a) (bigrams b) : ℤ) : ℤ) : ℚ) := by
        exact_mod_cast key.1
      have h2o : ((overlap (bigrams a) (bigrams b)) : ℚ) ≤
          ((((a.length : ℤ) - 1) + ((b.length : ℤ) - 1)
            - (overlap (bigrams a) (bigrams b) : ℤ) : ℤ) : ℚ) := by
        exact_mod_cast key.2
      constructor
      · have := (div_le_one hTpos).mpr h2o
        linarith
      · have : 0 ≤ ((overlap (bigrams a) (bigrams b)) : ℚ) /
            ((((a.length : ℤ) - 1) + ((b.length : ℤ) - 1)
              - (overlap (bigrams a) (bigrams b) : ℤ) : ℤ) : ℚ) :=
          div_nonneg (by positivity) (le_of_lt hTpos)
        linarith

theorem xdice_bounds (a b : List Char) :
    nonnegRes (xdice false a b) ∧ unitRes (xdice true a b) := by
  have main : ∀ norm x, xdice norm a b = some x → 0 ≤ x ∧ (norm = true → x ≤ 1) := by
    intro norm x hx
    unfold xdice at hx
    split at hx
    · obtain rfl := Option.some.inj hx
      exact ⟨by norm_num, fun _ => by norm_num⟩
    · next hne =>
      push_neg at hne
      obtain ⟨hT, hA, hB⟩ := hne
      have h1 := overlap_le_left (skipgrams a) (skipgrams b)
      have h2 := overlap_le_right (skipgrams a) (skipgrams b)
      rw [skipgrams_length] at h1
      rw [skipgrams_length] at h2
      have key : (0:ℤ) < ((a.length : ℤ) - 2) + ((b.length : ℤ) - 2) ∧
          (2 * (overlap (skipgrams a) (skipgrams b)) : ℤ) ≤
            ((a.length : ℤ) - 2) + ((b.length : ℤ) - 2) := by omega
      have hTpos : (0:ℚ) < ((((a.length : ℤ) - 2) + ((b.length : ℤ) - 2) : ℤ) : ℚ) := by
        exact_mod_cast key.1
      have h2o : (2 * (overlap (skipgrams a) (skipgrams b)) : ℚ) ≤
          ((((a.length : ℤ) - 2) + ((b.length : ℤ) - 2) : ℤ) : ℚ) := by
        exact_mod_cast key.2
      have hdivle : (2 * (overlap (skipgrams a) (skipgrams b)) : ℚ) /
            ((((a.length : ℤ) - 2) + ((b.length : ℤ) - 2) : ℤ) : ℚ) ≤ 1 :=
        (div_le_one hTpos).mpr h2o
      have hdivnn : 0 ≤ (2 * (overlap (skipgrams a) (skipgrams b)) : ℚ) /
            ((((a.length : ℤ) - 2) + ((b.length : ℤ) - 2) : ℤ) : ℚ) :=
        div_nonneg (by positivity) (le_of_lt hTpos)
      split at hx
      · obtain rfl := Option.some.inj hx
        exact ⟨by linarith, fun _ => by linarith⟩
      · next hnorm =>
        obtain rfl := Option.some.inj hx
        exact ⟨by linarith, fun hn => absurd hn hnorm⟩
  exact ⟨fun x hx => (main false x hx).1,
    fun x hx => ⟨(main true x hx).1, (main true x hx).2 rfl⟩⟩

theorem trigram_bounds (a b : List Char) :
    nonnegRes (trigram false a b) ∧ unitRes (trigram true a b) := by
  have main : ∀ norm x, trigram norm a b = some x → 0 ≤ x ∧ (norm = true → x ≤ 1) := by
    intro norm x hx
    unfold trigram at hx
    split at hx
    · obtain rfl := Option.some.inj hx
      exact ⟨by norm_num, fun _ => by norm_num⟩
    · next hne =>
      push_neg at hne
      obtain ⟨hT, hA, hB⟩ := hne
      have h1 := overlap_le_left (trigramsOf a) (trigramsOf b)
      have h2 := overlap_le_right (trigramsOf a) (trigramsOf b)
      rw [trigramsOf_length] at h1
      rw [trigramsOf_length] at h2
      have key : (0:ℤ) < ((a.length : ℤ) - 2) + ((b.length : ℤ) - 2) ∧
          (2 * (overlap (trigramsOf a) (trigramsOf b)) : ℤ) ≤
            ((a.length : ℤ) - 2) + ((b.length : ℤ) - 2) := by omega
      have hTpos : (0:ℚ) < ((((a.length : ℤ) - 2) + ((b.length : ℤ) - 2) : ℤ) : ℚ) := by
        exact_mod_cast key.1
      have h2o : (2 * (overlap (trigramsOf a) (trigramsOf b)) : ℚ) ≤
          ((((a.length : ℤ) - 2) + ((b.length : ℤ) - 2) : ℤ) : ℚ) := by
        exact_mod_cast key.2
      have hdivle : (2 * (overlap (trigramsOf a) (trigramsOf b)) : ℚ) /
            ((((a.length : ℤ) - 2) + ((b.length : ℤ) - 2) : ℤ) : ℚ) ≤ 1 :=
        (div_le_one hTpos).mpr h2o
      have hdivnn : 0 ≤ (2 * (overlap (trigramsOf a) (trigramsOf b)) : ℚ) /
            ((((a.length : ℤ) - 2) + ((b.length : ℤ) - 2) : ℤ) : ℚ) :=
        div_nonneg (by positivity) (le_of_lt hTpos)
      split at hx
      · obtain rfl := Option.some.inj hx
        exact ⟨by linarith, fun _ => by linarith⟩
      · next hnorm =>
        obtain rfl := Option.some.inj hx
        exact ⟨by linarith, fun hn => absurd hn hnorm⟩
  exact ⟨fun x hx => (main false x hx).1,
    fun x hx => ⟨(main true x hx).1, (main true x hx).2 rfl⟩⟩

/-! ## The value computed by `prefix`, restated structurally -/

/-- The number of positions of the zipped sequences at which the symbols
agree (an independent restatement of the loop inside the source's
longest-common-prefix metric). -/
def matchCount (a b : List Char) : ℕ :=
  ((a.zip b).filter (fun p => p.1 = p.2)).length

/-- Modelled from the spec (for the comparison in C9 only): "the longest
run of positions starting at index 0 on which A and B agree". -/
def leadingRun : List Char → List Char → ℕ
  | x :: xs, y :: ys => if x = y then leadingRun xs ys + 1 else 0
  | _, _ => 0

theorem prefCount_cons (x y : Char) (a b : List Char) :
    prefCount (x :: a) (y :: b) = (if x = y then 1 else 0) + prefCount a b := by
  unfold prefCount
  have hmin : min (x::a).length (y::b).length = min a.length b.length + 1 := by
    simp only [List.length_cons]
    omega
  rw [hmin, List.range_succ_eq_map, List.filter_cons]
  have htail : ((List.range (min a.length b.length)).map Nat.succ).filter
        (fun i => decide ((x::a).getD i padSym = (y::b).getD i padSym)) =
      ((List.range (min a.length b.length)).filter
        (fun i => decide (a.getD i padSym = b.getD i padSym))).map Nat.succ := by
    rw [List.filter_map]
    congr 1
  by_cases hxy : x = y
  · rw [if_pos (by simp [hxy]), if_pos hxy, htail]
    simp only [List.length_cons, List.length_map]
    omega
  · rw [if_neg (by simp [hxy]), if_neg hxy, htail]
    simp

theorem matchCount_cons (x y : Char) (a b : List Char) :
    matchCount (x :: a) (y :: b) = (if x = y then 1 else 0) + matchCount a b := by
  unfold matchCount
  rw [List.zip_cons_cons, List.filter_cons]
  by_cases hxy : x = y
  · rw [if_pos (by simp [hxy]), if_pos hxy]
    simp only [List.length_cons]
    omega
  · rw [if_neg (by simp [hxy]), if_neg hxy]
    simp

theorem prefCount_eq_matchCount : ∀ (a b : List Char),
    prefCount a b = matchCount a b := by
  intro a
  induction a with
  | nil => intro b; simp [prefCount, matchCount]
  | cons x a ih =>
      intro b
      cases b with
      | nil => simp [prefCount, matchCount]
      | cons y b => rw [prefCount_cons, matchCount_cons, ih b]

/-! ## The claims -/

/-- C1 counterexample: the combined 1-3-gram Jaccard metric `jcdn` is not
symmetric in its two sequence arguments: in raw mode it returns -5 on
("ab", "a") but 1 on ("a", "ab"), so the claim that every implemented
metric satisfies compute(m,A,B,·) = compute(m,B,A,·) is false. -/
theorem claim_C1_counterexample :
    jcdn false ['a','b'] ['a'] = some (-5) ∧
    jcdn false ['a'] ['a','b'] = some 1 ∧
    jcdn false ['a','b'] ['a'] ≠ jcdn false ['a'] ['a','b'] := by
  with_unfolding_all decide

set_option maxRecDepth 8192 in
/-- C1 (amended): every implemented metric is symmetric in its two sequence
arguments in both raw and normalized mode, except the "comprehensive"
weighted n-gram variants `bidist2`, `tridist2`, `bisim2`, `trisim2` (whose
local gram comparison counts only the first gram's symbols in the second)
and `jcdn` (whose second multiset is built from a stale loop index); each of
those five is asymmetric at a concrete input pair. -/
theorem claim_C1 :
    (∀ (norm : Bool) (a b : List Char),
      ldn norm a b = ldn norm b a ∧
      ldn_swap norm a b = ldn_swap norm b a ∧
      bidist1 norm a b = bidist1 norm b a ∧
      tridist1 norm a b = tridist1 norm b a ∧
      bidist3 norm a b = bidist3 norm b a ∧
      tridist3 norm a b = tridist3 norm b a ∧
      lcs norm a b = lcs norm b a ∧
      bisim1 norm a b = bisim1 norm b a ∧
      trisim1 norm a b = trisim1 norm b a ∧
      bisim3 norm a b = bisim3 norm b a ∧
      trisim3 norm a b = trisim3 norm b a ∧
      dice norm a b = dice norm b a ∧
      jcd norm a b = jcd norm b a ∧
      prefixDist norm a b = prefixDist norm b a ∧
      xdice norm a b = xdice norm b a ∧
      trigram norm a b = trigram norm b a ∧
      ident norm a b = ident norm b a ∧
      xxdice norm a b = xxdice norm b a) ∧
    bidist2 false ['x','x'] ['x','y'] ≠ bidist2 false ['x','y'] ['x','x'] ∧
    tridist2 false ['x','x'] ['x','y'] ≠ tridist2 false ['x','y'] ['x','x'] ∧
    bisim2 false ['x','x'] ['x','y'] ≠ bisim2 false ['x','y'] ['x','x'] ∧
    trisim2 false ['x','x'] ['x','y'] ≠ trisim2 false ['x','y'] ['x','x'] ∧
    jcdn false ['a','b'] ['a'] ≠ jcdn false ['a'] ['a','b'] := by
  refine ⟨fun norm a b =>
    ⟨ldn_symm norm a b, ldn_swap_symm norm a b, bidist1_symm norm a b,
      tridist1_symm norm a b, bidist3_symm norm a b, tridist3_symm norm a b,
      lcs_symm norm a b, bisim1_symm norm a b, trisim1_symm norm a b,
      bisim3_symm norm a b, trisim3_symm norm a b, dice_symm norm a b,
      jcd_symm norm a b, prefixDist_symm norm a b, xdice_symm norm a b,
      trigram_symm norm a b, ident_symm norm a b, xxdice_symm norm a b⟩,
    ?_, ?_, ?_, ?_, ?_⟩ <;> with_unfolding_all decide

/-- C2: every matrix-based metric (the Levenshtein variants, the n-gram
distance variants, and the similarity-derived matrix metrics, whose raw
score is reported as max-length minus the similarity) returns exactly 0 in
raw mode when comparing a sequence with itself. -/
theorem claim_C2 (a : List Char) :
    ldn false a a = some 0 ∧ ldn_swap false a a = some 0 ∧
    bidist1 false a a = some 0 ∧ tridist1 false a a = some 0 ∧
    bidist2 false a a = some 0 ∧ tridist2 false a a = some 0 ∧
    bidist3 false a a = some 0 ∧ tridist3 false a a = some 0 ∧
    lcs false a a = some 0 ∧ bisim1 false a a = some 0 ∧
    trisim1 false a a = some 0 ∧ bisim2 false a a = some 0 ∧
    trisim2 false a a = some 0 ∧ bisim3 false a a = some 0 ∧
    trisim3 false a a = some 0 :=
  ⟨ldn_self a, ldn_swap_self a, bidist1_self a, tridist1_self a,
    bidist2_self a, tridist2_self a, bidist3_self a, tridist3_self a,
    lcs_self a, bisim1_self a, trisim1_self a, bisim2_self a,
    trisim2_self a, bisim3_self a, trisim3_self a⟩

/-- C3 counterexample: `dice` in raw mode returns -1 on ("", "x"), because
`len(a) - 1` is used as a signed count of bigrams; so the claim that the
raw result of every metric is at least 0 is false. -/
theorem claim_C3_counterexample :
    dice false ([] : List Char) ['x'] = some (-1) ∧ ¬ (0:ℚ) ≤ (-1 : ℚ) := by
  with_unfolding_all decide

set_option maxRecDepth 8192 in
/-- C3 (amended): whenever a result is returned, the normalized result lies
in [0,1] and the raw result is nonnegative, for every metric except: `dice`
and `jcd` in raw mode require both inputs non-empty (with an empty input the
raw result can be negative), and `jcdn` and `xxdice` violate both bounds
even on non-degenerate inputs (shown at concrete inputs).  A normalized
computation that divides by zero returns no result at all. -/
theorem claim_C3 :
    (∀ a b : List Char,
      (a ≠ [] → b ≠ [] →
        nonnegRes (dice false a b) ∧ nonnegRes (jcd false a b)) ∧
      (unitRes (dice true a b) ∧ unitRes (jcd true a b)) ∧
      (nonnegRes (ldn false a b) ∧ unitRes (ldn true a b)) ∧
      (nonnegRes (ldn_swap false a b) ∧ unitRes (ldn_swap true a b)) ∧
      (nonnegRes (bidist1 false a b) ∧ unitRes (bidist1 true a b)) ∧
      (nonnegRes (tridist1 false a b) ∧ unitRes (tridist1 true a b)) ∧
      (nonnegRes (bidist2 false a b) ∧ unitRes (bidist2 true a b)) ∧
      (nonnegRes (tridist2 false a b) ∧ unitRes (tridist2 true a b)) ∧
      (nonnegRes (bidist3 false a b) ∧ unitRes (bidist3 true a b)) ∧
      (nonnegRes (tridist3 false a b) ∧ unitRes (tridist3 true a b)) ∧
      (nonnegRes (lcs false a b) ∧ unitRes (lcs true a b)) ∧
      (nonnegRes (bisim1 false a b) ∧ unitRes (bisim1 true a b)) ∧
      (nonnegRes (trisim1 false a b) ∧ unitRes (trisim1 true a b)) ∧
      (nonnegRes (bisim2 false a b) ∧ unitRes (bisim2 true a b)) ∧
      (nonnegRes (trisim2 false a b) ∧ unitRes (trisim2 true a b)) ∧
      (nonnegRes (bisim3 false a b) ∧ unitRes (bisim3 true a b)) ∧
      (nonnegRes (trisim3 false a b) ∧ unitRes (trisim3 true a b)) ∧
      (nonnegRes (prefixDist false a b) ∧ unitRes (prefixDist true a b)) ∧
      (nonnegRes (ident false a b) ∧ unitRes (ident true a b)) ∧
      (nonnegRes (xdice false a b) ∧ unitRes (xdice true a b)) ∧
      (nonnegRes (trigram false a b) ∧ unitRes (trigram true a b))) ∧
    (jcdn true ['a','b'] ['a','b'] = some (5/2) ∧ ¬ ((5:ℚ)/2 ≤ 1)) ∧
    (xxdice false (List.replicate 4 'a') (List.replicate 4 'a') =
        some (-24/5) ∧ ¬ (0:ℚ) ≤ (-24/5 : ℚ)) := by
  refine ⟨fun a b =>
    ⟨fun ha hb => ⟨dice_raw_nonneg a b ha hb, jcd_raw_nonneg a b ha hb⟩,
      ⟨dice_unit a b, jcd_unit a b⟩, ldn_bounds a b, ldn_swap_bounds a b,
      bidist1_bounds a b, tridist1_bounds a b, bidist2_bounds a b,
      tridist2_bounds a b, bidist3_bounds a b, tridist3_bounds a b,
      lcs_bounds a b, bisim1_bounds a b, trisim1_bounds a b,
      bisim2_bounds a b, trisim2_bounds a b, bisim3_bounds a b,
      trisim3_bounds a b, prefixDist_bounds a b,
      ⟨fun r h => (ident_bounds false a b r h).1, ident_bounds true a b⟩,
      xdice_bounds a b, trigram_bounds a b⟩,
    ?_, ?_⟩ <;> with_unfolding_all decide

/-- C3 witness: the raw-mode `dice` bound applied at ("ab", "ba"), where
the result is 2 and both non-emptiness hypotheses are discharged. -/
theorem claim_C3_witness : (0:ℚ) ≤ 2 :=
  ((claim_C3.1 ['a','b'] ['b','a']).1 (by decide) (by decide)).1 2
    (by with_unfolding_all decide)

/-- C4 counterexample: the common-trigram metric returns the literal 1.0,
not 0, when both shifted lengths are non-positive:
compute(trigram, "a", "b", raw) = 1. -/
theorem claim_C4_counterexample :
    trigram false ['a'] ['b'] = some 1 ∧ (1 : ℚ) ≠ 0 := by
  with_unfolding_all decide

/-- C4 (amended): in the degenerate cases none of the overlap metrics
raises an error, but the returned literal differs by metric: `dice` and
`jcd` return 0 exactly when both inputs have length 1 (both shifted lengths
are 0; in particular compute(dice, "a", "b", raw) = 0, while on two empty
inputs dice returns -2); `xdice` returns 0 and `trigram` returns the
literal 1.0 whenever both shifted lengths (length - 2) are non-positive. -/
theorem claim_C4 :
    (∀ a b : List Char, a.length = 1 → b.length = 1 →
      dice false a b = some 0 ∧ dice true a b = some 0 ∧
      jcd false a b = some 0 ∧ jcd true a b = some 0) ∧
    (∀ a b : List Char, a.length ≤ 2 → b.length ≤ 2 →
      xdice false a b = some 0 ∧ xdice true a b = some 0 ∧
      trigram false a b = some 1 ∧ trigram true a b = some 1) ∧
    dice false ['a'] ['b'] = some 0 ∧
    dice false ([] : List Char) [] = some (-2) := by
  refine ⟨?_, ?_, by with_unfolding_all decide, by with_unfolding_all decide⟩
  · intro a b ha hb
    have hba : bigrams a = [] := by unfold bigrams; rw [ha]; simp
    have hbb : bigrams b = [] := by unfold bigrams; rw [hb]; simp
    unfold dice jcd
    rw [ha, hb, hba, hbb, overlap_nil_left]
    norm_num
  · intro a b ha hb
    have hcond : ((a.length : ℤ) - 2) + ((b.length : ℤ) - 2) = 0 ∨
        (a.length : ℤ) - 2 < 1 ∨ (b.length : ℤ) - 2 < 1 := by omega
    unfold xdice trigram
    rw [if_pos hcond, if_pos hcond, if_pos hcond, if_pos hcond]
    exact ⟨rfl, rfl, rfl, rfl⟩

/-- C4 witness: the degenerate rule applied at ("a", "b"), all length
hypotheses discharged. -/
theorem claim_C4_witness : dice false ['a'] ['b'] = some 0 :=
  (claim_C4.1 ['a'] ['b'] rfl rfl).1

/-- C5 counterexample: the plain Levenshtein metric in normalized mode on
two empty inputs does not return the boundary value 0: it divides by
max(|A|,|B|) = 0 and raises (modelled as `none`). -/
theorem claim_C5_counterexample :
    ldn true ([] : List Char) [] = none ∧
    ldn true ([] : List Char) [] ≠ some 0 := by
  with_unfolding_all decide

/-- C5 (amended): in normalized mode on two empty inputs, only the padded
n-gram metrics whose normalization denominator stays positive return the
boundary value 0 (`bidist1`, `tridist1`, `tridist2`, `tridist3`); all the
other matrix-based metrics (`ldn`, `ldn_swap`, `lcs`, `bidist2`, `bidist3`
and all six similarity metrics) divide by max(|A|,|B|) = 0 and raise a
ZeroDivisionError (modelled as `none`) instead of returning 0. -/
theorem claim_C5 :
    bidist1 true ([] : List Char) [] = some 0 ∧
    tridist1 true ([] : List Char) [] = some 0 ∧
    tridist2 true ([] : List Char) [] = some 0 ∧
    tridist3 true ([] : List Char) [] = some 0 ∧
    ldn true ([] : List Char) [] = none ∧
    ldn_swap true ([] : List Char) [] = none ∧
    lcs true ([] : List Char) [] = none ∧
    bidist2 true ([] : List Char) [] = none ∧
    bidist3 true ([] : List Char) [] = none ∧
    bisim1 true ([] : List Char) [] = none ∧
    trisim1 true ([] : List Char) [] = none ∧
    bisim2 true ([] : List Char) [] = none ∧
    trisim2 true ([] : List Char) [] = none ∧
    bisim3 true ([] : List Char) [] = none ∧
    trisim3 true ([] : List Char) [] = none := by
  with_unfolding_all decide

/-- C6: on ("ab", "ba") in raw mode the transposition-aware Levenshtein
metric returns exactly 1 while the plain Levenshtein metric returns exactly
2: the transposition shortcut detects an adjacent swap at unit cost. -/
theorem claim_C6 :
    ldn_swap false ['a','b'] ['b','a'] = some 1 ∧
    ldn false ['a','b'] ['b','a'] = some 2 := by
  with_unfolding_all decide

/-- C7: for every sequence and every n-gram width n in {1,2,3}, padding
with n-1 pad symbols on each side and taking every width-n window (count
guarded by max(0, padded_length - n + 1)) produces exactly
len(seq) + n - 1 n-grams, including for the empty sequence. -/
theorem claim_C7 (s : List Char) (n : ℕ) (hn : n = 1 ∨ n = 2 ∨ n = 3) :
    (ngrams padSym n s).length = s.length + n - 1 :=
  ngrams_length padSym n s (by omega)

/-- C7 witness: the empty sequence with n = 2 yields 0 + 2 - 1 = 1
n-gram. -/
theorem claim_C7_witness :
    (ngrams padSym 2 ([] : List Char)).length = ([] : List Char).length + 2 - 1 :=
  claim_C7 [] 2 (Or.inr (Or.inl rfl))

/-- C8 counterexample: bigram extraction of the empty sequence yields 1
window, not 2: the padded sequence "--" has exactly one width-2 window. -/
theorem claim_C8_counterexample :
    (ngrams padSym 2 ([] : List Char)).length ≠ 2 := by
  decide

/-- C8 (amended): applying bigram extraction (n = 2, pad "-") to the empty
sequence yields exactly one window, consisting entirely of pad symbols. -/
theorem claim_C8 : ngrams padSym 2 ([] : List Char) = [[padSym, padSym]] := by
  decide

/-- C9 counterexample: on A = "axc", B = "ayc" the raw
longest-common-prefix metric returns 1, not max(3,3) minus the longest
shared leading run (which is 1, so the claim predicts 2): the code counts
every agreeing position below min(|A|,|B|), not only the leading run. -/
theorem claim_C9_counterexample :
    prefixDist false ['a','x','c'] ['a','y','c'] ≠
      some (((max (['a','x','c'].length) (['a','y','c'].length) : ℕ) : ℚ) -
        ((leadingRun ['a','x','c'] ['a','y','c'] : ℕ) : ℚ)) := by
  with_unfolding_all decide

/-- C9 (amended): for every pair of sequences the raw longest-common-prefix
metric returns max(|A|,|B|) minus the number of positions
i < min(|A|,|B|) at which A[i] = B[i] (matching positions anywhere, not the
longest leading run); it is not overlap-based. -/
theorem claim_C9 (a b : List Char) :
    prefixDist false a b =
      some (((max a.length b.length : ℕ) : ℚ) - ((matchCount a b : ℕ) : ℚ)) := by
  unfold prefixDist
  rw [if_neg Bool.false_ne_true, prefCount_eq_matchCount]

/-- C10: the raw transposition-aware Levenshtein distance never exceeds
the raw plain Levenshtein distance, because the transposition recurrence
only adds one more minimization option to the base recurrence. -/
theorem claim_C10 (a b : List Char) (r t : ℚ)
    (hr : ldn_swap false a b = some r) (ht : ldn false a b = some t) :
    r ≤ t := by
  unfold ldn_swap at hr
  unfold ldn at ht
  rw [distOut_false] at hr ht
  obtain rfl := Option.some.inj hr
  obtain rfl := Option.some.inj ht
  exact wcell_le_dcell a b padSym a.length b.length

/-- C10 witness: at ("ab", "ba") the transposition-aware distance 1 is
below the plain distance 2. -/
theorem claim_C10_witness : (1:ℚ) ≤ 2 :=
  claim_C10 ['a','b'] ['b','a'] 1 2 (by with_unfolding_all decide)
    (by with_unfolding_all decide)

end LingpyStrings
